import Mathlib

/-!
Shallow embedding of the Skylark BI normalization and metrics engine
(backend `normalizer.js` and `queryEngine.js`) in Lean 4.

Modelling conventions:
* JavaScript strings are modelled as Lean `String` (a list of characters);
  string helpers (`trim`, `toLowerCase`, `includes`) are re-implemented
  over `List Char` so that they can be reasoned about directly.
  `toLowerCase` is modelled on the ASCII range, which covers every string
  constant appearing in the source.
* JavaScript numbers are modelled as exact rationals `ℚ`; IEEE-754
  rounding is not modelled (all amounts appearing in the claims are
  exactly representable).
* Scalar cell values of normalized rows are modelled by the inductive
  `JsVal` (string, number or null).
* `new Date(string)` is modelled for the date-only ISO form
  `YYYY-MM-DD` (the form produced by the pipeline itself); date-time
  suffixes and timezone offsets are outside the model.
-/

namespace Skylark

/-- Whitespace characters recognized by the modelled `String.prototype.trim`
(ASCII subset). -/
def isWs (c : Char) : Bool :=
  c = ' ' || c = '\t' || c = '\n' || c = '\r' || c = '\x0b' || c = '\x0c'

/-- Trim both ends of a character list (model of `String.prototype.trim`). -/
def trimList (l : List Char) : List Char :=
  ((l.dropWhile isWs).reverse.dropWhile isWs).reverse

/-- Model of `String.prototype.trim`. -/
def jsTrim (s : String) : String := ⟨trimList s.data⟩

/-- ASCII model of `Char` lowering used by `String.prototype.toLowerCase`. -/
def jsLowerChar (c : Char) : Char :=
  if 'A' ≤ c ∧ c ≤ 'Z' then Char.ofNat (c.toNat + 32) else c

/-- Model of `String.prototype.toLowerCase` (ASCII range). -/
def jsLower (s : String) : String := ⟨s.data.map jsLowerChar⟩

/-- Does `l` start with `p`? -/
def startsWithL : List Char → List Char → Bool
  | _, [] => true
  | [], _ :: _ => false
  | a :: as, b :: bs => a = b && startsWithL as bs

/-- Model of `String.prototype.includes` on character lists. -/
def containsL : List Char → List Char → Bool
  | [], nd => nd.isEmpty
  | h :: t, nd => startsWithL (h :: t) nd || containsL t nd

/-- Model of `String.prototype.includes`. -/
def jsIncludes (hay nd : String) : Bool := containsL hay.data nd.data

/-- Association-list lookup (model of JS object property lookup built
key by key, first binding wins). -/
def alookup {α : Type} (k : String) : List (String × α) → Option α
  | [] => none
  | (k₀, v) :: t => if k = k₀ then some v else alookup k t

-- ── Sector canonicalization (normalizer.js SECTOR_MAP) ──────────────

/-- Embedding of `SECTOR_MAP` from `normalizer.js`. -/
def SECTOR_MAP : List (String × String) :=
  [("oil & gas", "Oil & Gas"), ("oil and gas", "Oil & Gas"), ("o&g", "Oil & Gas"),
   ("mining", "Mining"), ("mines", "Mining"),
   ("infra", "Infrastructure"), ("infrastructure", "Infrastructure"),
   ("real estate", "Real Estate"), ("realestate", "Real Estate"),
   ("construction", "Construction"),
   ("agriculture", "Agriculture"), ("agri", "Agriculture"),
   ("solar", "Solar Energy"), ("solar energy", "Solar Energy"),
   ("renewables", "Renewable Energy"), ("renewable energy", "Renewable Energy"),
   ("telecom", "Telecom"), ("telecommunications", "Telecom"),
   ("govt", "Government"), ("government", "Government"), ("public sector", "Government"),
   ("defence", "Defence"), ("defense", "Defence"),
   ("urban dev", "Urban Development"), ("urban development", "Urban Development"),
   ("survey", "Survey"), ("surveying", "Survey")]

/-- The own property names of `Object.prototype`, inherited by every
plain object literal such as `SECTOR_MAP` (the web-standard `__proto__`
accessor included): a property read `obj[key]` on a literal without an
own entry for `key` yields the inherited member — a truthy function,
or `Object.prototype` itself for `"__proto__"` — instead of
`undefined`. -/
def objectProtoProps : List String :=
  ["constructor", "hasOwnProperty", "isPrototypeOf", "propertyIsEnumerable",
   "toLocaleString", "toString", "valueOf", "__defineGetter__", "__defineSetter__",
   "__lookupGetter__", "__lookupSetter__", "__proto__"]

/-- A value `canonicalizeSector` can return: JS `null`, a string, or an
inherited `Object.prototype` member (reached when the lowercased
trimmed key has no own `SECTOR_MAP` entry but names a prototype
member; the `||` passes it through because it is truthy). -/
inductive SectorOut where
  | null
  | str (s : String)
  | protoVal (name : String)
deriving DecidableEq, Repr

/-- `String(v)` for the inherited member named `name`:
`String(Object.prototype)` is the fully specified `"[object Object]"`;
for the function-valued members it is the NativeFunction rendering
`"function NAME() { [native code] }"` that all current engines share
(the member `"constructor"` is the function `Object`). Only the
`"__proto__"` case appears in any theorem. -/
def protoValJsString (name : String) : String :=
  if name = "__proto__" then "[object Object]"
  else if name = "constructor" then "function Object() \x7b [native code] \x7d"
  else "function " ++ name ++ "() \x7b [native code] \x7d"

/-- Embedding of `canonicalizeSector` from `normalizer.js`: empty or
whitespace-only input yields JS `null`; otherwise
`SECTOR_MAP[key] || String(raw).trim()` — an own entry of the literal
first, then an inherited `Object.prototype` member (truthy, so the
`||` returns it), then the trimmed input unchanged. -/
def canonicalizeSector (raw : String) : SectorOut :=
  if jsTrim raw = "" then SectorOut.null
  else
    match alookup (jsLower (jsTrim raw)) SECTOR_MAP with
    | some v => SectorOut.str v
    | none =>
      if jsLower (jsTrim raw) ∈ objectProtoProps then
        SectorOut.protoVal (jsLower (jsTrim raw))
      else SectorOut.str (jsTrim raw)

/-- `canonicalizeSector` lifted to a nullable argument: on JS `null` the
guard `!raw` returns `null` immediately. -/
def canonicalizeSectorOpt (raw : Option String) : SectorOut :=
  match raw with
  | none => SectorOut.null
  | some s => canonicalizeSector s

/-- `canonicalizeSector` applied to one of its own results, as JS
evaluates the second application: `null` fails the `!raw` guard, a
string is processed as usual, and an inherited prototype member (a
truthy object or function) is coerced by `String(raw)` to
`protoValJsString`. -/
def canonicalizeSectorNext : SectorOut → SectorOut
  | SectorOut.null => SectorOut.null
  | SectorOut.str s => canonicalizeSector s
  | SectorOut.protoVal name => canonicalizeSector (protoValJsString name)

-- ── List helper lemmas for trim idempotence ─────────────────────────

theorem head?_dropWhile_not (p : Char → Bool) (l : List Char) :
    ∀ c, (l.dropWhile p).head? = some c → p c = false := by
  induction l with
  | nil => intro c h; simp [List.dropWhile] at h
  | cons a t ih =>
    intro c h
    by_cases hp : p a
    · rw [List.dropWhile_cons_of_pos hp] at h
      exact ih c h
    · rw [List.dropWhile_cons_of_neg hp] at h
      simp at h
      rw [← h]
      exact Bool.eq_false_iff.mpr hp

theorem dropWhile_eq_self_of_head (p : Char → Bool) (l : List Char)
    (h : ∀ c, l.head? = some c → p c = false) : l.dropWhile p = l := by
  cases l with
  | nil => rfl
  | cons a t =>
    have : p a = false := h a rfl
    simp [List.dropWhile, this]

theorem dropWhile_eq_drop (p : Char → Bool) (x : List Char) :
    x.dropWhile p = x.drop (x.takeWhile p).length := by
  induction x with
  | nil => rfl
  | cons a t ih =>
    by_cases h : p a <;> simp [List.dropWhile_cons, List.takeWhile_cons, h, ih]

/-- The right-trim step produces a prefix of its input (as a `take`). -/
theorem reverse_dropWhile_reverse_eq_take (p : Char → Bool) (l : List Char) :
    ∃ n, (l.reverse.dropWhile p).reverse = l.take n := by
  refine ⟨l.length - (l.reverse.takeWhile p).length, ?_⟩
  rw [dropWhile_eq_drop, List.reverse_drop]
  simp

theorem trimList_head (l : List Char) :
    ∀ c, (trimList l).head? = some c → isWs c = false := by
  intro c h
  unfold trimList at h
  obtain ⟨n, hn⟩ := reverse_dropWhile_reverse_eq_take isWs (l.dropWhile isWs)
  rw [hn] at h
  have : (l.dropWhile isWs).head? = some c := by
    cases hld : l.dropWhile isWs with
    | nil => rw [hld] at h; simp at h
    | cons a t =>
      rw [hld] at h
      cases n with
      | zero => simp at h
      | succ m => simp at h; simp [h]
  exact head?_dropWhile_not isWs l c this

theorem trimList_getLast (l : List Char) :
    ∀ c, (trimList l).reverse.head? = some c → isWs c = false := by
  intro c h
  unfold trimList at h
  rw [List.reverse_reverse] at h
  exact head?_dropWhile_not isWs (l.dropWhile isWs).reverse c h

/-- `trim` is idempotent. -/
theorem trimList_idem (l : List Char) : trimList (trimList l) = trimList l := by
  have h1 : (trimList l).dropWhile isWs = trimList l :=
    dropWhile_eq_self_of_head isWs _ (trimList_head l)
  have h2 : (trimList l).reverse.dropWhile isWs = (trimList l).reverse :=
    dropWhile_eq_self_of_head isWs _ (trimList_getLast l)
  have hdef : trimList (trimList l) =
      (((trimList l).dropWhile isWs).reverse.dropWhile isWs).reverse := rfl
  rw [hdef, h1, h2, List.reverse_reverse]

theorem jsTrim_idem (s : String) : jsTrim (jsTrim s) = jsTrim s := by
  unfold jsTrim
  exact congrArg String.mk (trimList_idem s.data)

theorem alookup_mem {α : Type} (k : String) (l : List (String × α)) (v : α)
    (h : alookup k l = some v) : (k, v) ∈ l := by
  induction l with
  | nil => simp [alookup] at h
  | cons p t ih =>
    unfold alookup at h
    by_cases hk : k = p.1
    · rw [if_pos hk] at h
      have hv : p.2 = v := Option.some.inj h
      have hp : p = (k, v) := by
        cases p
        simp_all
      rw [hp]
      exact List.mem_cons_self _ _
    · rw [if_neg hk] at h
      exact List.mem_cons_of_mem _ (ih h)

/-- Every canonical sector name in `SECTOR_MAP` is a fixed point of
`canonicalizeSector`. -/
theorem sector_map_values_fixed :
    ∀ p ∈ SECTOR_MAP, canonicalizeSector p.2 = SectorOut.str p.2 := by decide

/-- C9 counterexample to the claim as stated: `SECTOR_MAP` is a plain
object literal, so `SECTOR_MAP["__proto__"]` yields the inherited
(truthy) `Object.prototype` instead of falling through to the trimmed
input. `canonicalizeSector("__proto__")` is therefore not a string at
all, and the second application coerces it to `"[object Object]"`:
applying twice differs from applying once. -/
theorem C9_counterexample :
    canonicalizeSector "__proto__" = SectorOut.protoVal "__proto__" ∧
    canonicalizeSectorNext (canonicalizeSector "__proto__") =
      SectorOut.str "[object Object]" ∧
    canonicalizeSectorNext (canonicalizeSector "__proto__") ≠
      canonicalizeSector "__proto__" := by
  refine ⟨by decide, by decide, by decide⟩

/-- **C9 (amended)** — `canonicalizeSector` is idempotent on every
input whose lowercased trimmed form is not a property name of
`Object.prototype`: synonym-table hits are mapped to fixed canonical
names, other such inputs are returned trimmed, and empty input maps to
`null`, which maps to `null` again; for the twelve prototype property
names (`"constructor"`, `"__proto__"`, …) the lookup returns the
inherited member and idempotence fails. -/
theorem C9_canonicalizeSector_amended (s : String)
    (hsafe : jsLower (jsTrim s) ∉ objectProtoProps) :
    canonicalizeSectorNext (canonicalizeSector s) = canonicalizeSector s ∧
      canonicalizeSectorNext SectorOut.null = SectorOut.null := by
  refine ⟨?_, rfl⟩
  unfold canonicalizeSector
  by_cases he : jsTrim s = ""
  · simp [he, canonicalizeSectorNext]
  · simp only [he, if_false]
    cases hl : alookup (jsLower (jsTrim s)) SECTOR_MAP with
    | some v =>
      simp only [canonicalizeSectorNext]
      have := sector_map_values_fixed _ (alookup_mem _ _ _ hl)
      exact this
    | none =>
      rw [if_neg hsafe]
      simp only [canonicalizeSectorNext]
      unfold canonicalizeSector
      rw [jsTrim_idem]
      simp [he, hl, hsafe]

/-- C9 witness: an unmatched sector name outside the prototype
property names is a fixed point. -/
theorem C9_witness :
    jsLower (jsTrim "Aerospace") ∉ objectProtoProps ∧
    (canonicalizeSectorNext (canonicalizeSector "Aerospace") =
        canonicalizeSector "Aerospace" ∧
      canonicalizeSectorNext SectorOut.null = SectorOut.null) :=
  ⟨by decide, C9_canonicalizeSector_amended "Aerospace" (by decide)⟩

-- ── Normalized rows and column resolution (queryEngine.js findCol) ──

/-- Scalar value stored in a normalized row: the JS values the
normalizer writes are strings, numbers and `null`. -/
inductive JsVal where
  | str (s : String)
  | num (q : ℚ)
  | null
deriving DecidableEq, Repr

/-- JS truthiness of a row value (`null`, `""` and `0` are falsy). -/
def jsTruthy : JsVal → Bool
  | .null => false
  | .str s => s ≠ ""
  | .num q => q ≠ 0

/-- String coercion of a row value, used for JS regex tests and object
keys. The exact decimal rendering of numbers is idealized (it never
contains letters, which is all the regex tests depend on). -/
def jsValToString : JsVal → String
  | .str s => s
  | .num q => toString q
  | .null => "null"

/-- A normalized row: a JS object modelled as an association list in
insertion order. -/
abbrev Row := List (String × JsVal)

/-- JS property assignment `row[k] = v`: overwrite in place, else append. -/
def setKey : Row → String → JsVal → Row
  | [], k, v => [(k, v)]
  | (k₀, v₀) :: t, k, v => if k = k₀ then (k₀, v) :: t else (k₀, v₀) :: setKey t k v

/-- Model of `Object.keys` for rows built with `setKey` (insertion order). -/
def rowKeys (r : Row) : List String := r.map Prod.fst

/-- Exact pass of `findCol`: for each candidate in priority order, find
the first key whose lowercasing equals the candidate's lowercasing. -/
def findExact (keys : List String) : List String → Option String
  | [] => none
  | c :: cs =>
    match keys.find? (fun k => jsLower k = jsLower c) with
    | some k => some k
    | none => findExact keys cs

/-- Substring pass of `findCol`: first key whose lowercasing contains the
candidate's lowercasing. -/
def findSub (keys : List String) : List String → Option String
  | [] => none
  | c :: cs =>
    match keys.find? (fun k => jsIncludes (jsLower k) (jsLower c)) with
    | some k => some k
    | none => findSub keys cs

/-- Embedding of `findCol` from `queryEngine.js`: consults only the keys
of the first row; exact case-insensitive pass first, then substring pass. -/
def findCol (rows : List Row) (candidates : List String) : Option String :=
  match rows with
  | [] => none
  | r :: _ =>
    match findExact (rowKeys r) candidates with
    | some k => some k
    | none => findSub (rowKeys r) candidates

/-- **C10** — column resolution consults only the keys of the first row:
for every non-empty row list, `findCol rows candidates` equals
`findCol [rows.head]` on the same candidates, and on an empty row list
`findCol` returns `null`. -/
theorem C10_findCol_first_row (rows : List Row) (candidates : List String)
    (h : rows ≠ []) :
    findCol rows candidates = findCol [rows.head h] candidates ∧
      findCol ([] : List Row) candidates = none := by
  constructor
  · cases rows with
    | nil => exact absurd rfl h
    | cons r t => rfl
  · rfl

/-- Witness for C10 at a concrete input: the key `"Deal Stage"` present
only in the second row is not resolved. -/
theorem C10_witness :
    findCol [[("Deal Value", JsVal.num 5)], [("Deal Stage", JsVal.str "Won")]]
        ["deal stage", "stage"] =
      findCol [[("Deal Value", JsVal.num 5)]] ["deal stage", "stage"] ∧
      findCol ([] : List Row) ["deal stage", "stage"] = none :=
  C10_findCol_first_row
    [[("Deal Value", JsVal.num 5)], [("Deal Stage", JsVal.str "Won")]]
    ["deal stage", "stage"] (by simp)

-- ── JS number parsing: Number() and parseFloat ──────────────────────

/-- Numeric value of a list of decimal digit characters. -/
def digitsVal (ds : List Char) : ℕ := ds.foldl (fun a c => a * 10 + (c.toNat - 48)) 0

/-- Split a maximal run of decimal digits off the front. -/
def takeDigits (l : List Char) : List Char × List Char :=
  (l.takeWhile Char.isDigit, l.dropWhile Char.isDigit)

def isHexDigit (c : Char) : Bool :=
  c.isDigit || ('a' ≤ c && c ≤ 'f') || ('A' ≤ c && c ≤ 'F')

def hexDigitVal (c : Char) : ℕ :=
  if c.isDigit then c.toNat - 48 else if 'a' ≤ c then c.toNat - 87 else c.toNat - 55

def hexListVal (ds : List Char) : ℕ := ds.foldl (fun a c => a * 16 + hexDigitVal c) 0

def isOctDigit (c : Char) : Bool := '0' ≤ c && c ≤ '7'

def octListVal (ds : List Char) : ℕ := ds.foldl (fun a c => a * 8 + (c.toNat - 48)) 0

def isBinDigit (c : Char) : Bool := c = '0' || c = '1'

def binListVal (ds : List Char) : ℕ := ds.foldl (fun a c => a * 2 + (c.toNat - 48)) 0

/-- Kernel-reducible power of ten in `ℕ`. -/
def npow10 : ℕ → ℕ
  | 0 => 1
  | n + 1 => 10 * npow10 n

/-- The exact rational value `±(ip.fp) × 10^e` of a decimal literal with
integer digits `ip`, fraction digits `fp` and exponent `e`, produced as
a single normalized rational (so that concrete instances reduce in the
kernel). -/
def decValue (neg : Bool) (ip fp : List Char) (e : ℤ) : ℚ :=
  let mag : ℤ := ((digitsVal ip * npow10 fp.length + digitsVal fp : ℕ) : ℤ)
  let num : ℤ := if neg then -mag else mag
  if 0 ≤ e then mkRat (num * ((npow10 e.toNat : ℕ) : ℤ)) (npow10 fp.length)
  else mkRat num (npow10 fp.length * npow10 (-e).toNat)

/-- Exponent suffix of a JS decimal literal; the whole remainder must be
consumed (`Number` requires a full match). `[]` means exponent 0. -/
def parseExpTail (l : List Char) : Option ℤ :=
  match l with
  | [] => some 0
  | c :: r =>
    if c = 'e' ∨ c = 'E' then
      let core := fun (l2 : List Char) (sgn : ℤ) =>
        let (ds, rest) := takeDigits l2
        if ds ≠ [] ∧ rest = [] then some (sgn * (digitsVal ds : ℤ)) else none
      match r with
      | '+' :: r2 => core r2 1
      | '-' :: r2 => core r2 (-1)
      | _ => core r 1
    else none

/-- JS decimal literal after the sign (`Number` grammar:
`digits [. digits?] [exp]` or `. digits [exp]`), full match required. -/
def parseDecTail (neg : Bool) (l : List Char) : Option ℚ :=
  let ip := l.takeWhile Char.isDigit
  match l.dropWhile Char.isDigit with
  | '.' :: r2 =>
    let fp := r2.takeWhile Char.isDigit
    if ip = [] ∧ fp = [] then none
    else (parseExpTail (r2.dropWhile Char.isDigit)).map (decValue neg ip fp)
  | r1 =>
    if ip = [] then none
    else (parseExpTail r1).map (decValue neg ip [])

/-- Signed JS decimal literal. -/
def decSigned (l : List Char) : Option ℚ :=
  if l.head? = some '+' then parseDecTail false l.tail
  else if l.head? = some '-' then parseDecTail true l.tail
  else parseDecTail false l

/-- Non-decimal radix literal tail (after `0x` / `0o` / `0b`): all
remaining characters must be digits of the radix. -/
def radixTail (l : List Char) (p : Char → Bool) (val : List Char → ℕ) : Option ℚ :=
  if l ≠ [] ∧ l.all p then some ((val l : ℕ) : ℚ) else none

/-- Model of JS `Number(string)` on an already trimmed string. `none`
stands for any non-finite result (`NaN`, `±Infinity`), which the source
only ever inspects through `Number.isFinite`. -/
def jsStrToNum (l : List Char) : Option ℚ :=
  match l with
  | [] => some 0
  | h :: t =>
    if h = '0' ∧ (t.head? = some 'x' ∨ t.head? = some 'X') then
      radixTail t.tail isHexDigit hexListVal
    else if h = '0' ∧ (t.head? = some 'o' ∨ t.head? = some 'O') then
      radixTail t.tail isOctDigit octListVal
    else if h = '0' ∧ (t.head? = some 'b' ∨ t.head? = some 'B') then
      radixTail t.tail isBinDigit binListVal
    else decSigned (h :: t)

/-- Optional exponent for `parseFloat` (prefix semantics: an `e` not
followed by digits is simply not consumed). -/
def parseFloatExp (l : List Char) : ℤ :=
  match l with
  | c :: r =>
    if c = 'e' ∨ c = 'E' then
      let core := fun (l2 : List Char) (sgn : ℤ) =>
        let (ds, _) := takeDigits l2
        if ds ≠ [] then sgn * (digitsVal ds : ℤ) else 0
      match r with
      | '+' :: r2 => core r2 1
      | '-' :: r2 => core r2 (-1)
      | _ => core r 1
    else 0
  | [] => 0

/-- Main part of `parseFloat` after the sign (longest valid prefix;
trailing characters ignored). -/
def parseFloatTail (neg : Bool) (l : List Char) : Option ℚ :=
  let ip := l.takeWhile Char.isDigit
  match l.dropWhile Char.isDigit with
  | '.' :: r2 =>
    let fp := r2.takeWhile Char.isDigit
    if ip = [] ∧ fp = [] then none
    else some (decValue neg ip fp (parseFloatExp (r2.dropWhile Char.isDigit)))
  | r1 =>
    if ip = [] then none
    else some (decValue neg ip [] (parseFloatExp r1))

/-- Model of JS `parseFloat(string)`: leading whitespace skipped, longest
valid decimal prefix parsed, `none` for `NaN`. (`Infinity` literals are
not modelled: every call site has already stripped all letters.) -/
def jsParseFloat (l : List Char) : Option ℚ :=
  match l.dropWhile isWs with
  | '+' :: r => parseFloatTail false r
  | '-' :: r => parseFloatTail true r
  | l' => parseFloatTail false l'

-- ── Proleptic Gregorian calendar (model of the JS Date internals) ───

def isLeap (y : ℕ) : Bool := (y % 4 = 0 ∧ y % 100 ≠ 0) ∨ y % 400 = 0

def daysInMonth (y m : ℕ) : ℕ :=
  if m = 2 then (if isLeap y then 29 else 28)
  else if m = 4 ∨ m = 6 ∨ m = 9 ∨ m = 11 then 30
  else 31

/-- Day number (1970-01-01 = 0) of a civil date, for years `0 ≤ y`.
Standard era-based conversion. -/
def daysFromCivil (y m d : ℕ) : ℤ :=
  if y = 0 ∧ m ≤ 2 then
    (-1 : ℤ) * 146097 + ((399 * 365 + 399 / 4 - 399 / 100
      + ((153 * (m + 9) + 2) / 5 + d - 1) : ℕ) : ℤ) - 719468
  else
    let yn := if m ≤ 2 then y - 1 else y
    let era := yn / 400
    let yoe := yn % 400
    let doy := (153 * (if 2 < m then m - 3 else m + 9) + 2) / 5 + d - 1
    let doe := yoe * 365 + yoe / 4 - yoe / 100 + doy
    (era : ℤ) * 146097 + (doe : ℤ) - 719468

/-- Civil date `(y, m, d)` of a shifted day number `sday = day + 719468`
(so `sday = 0` is 0000-03-01). Standard era-based conversion. -/
def civilFromDaysN (sday : ℕ) : ℕ × ℕ × ℕ :=
  let era := sday / 146097
  let doe := sday % 146097
  let yoe := (doe - doe / 1460 + doe / 36524 - doe / 146096) / 365
  let y0 := yoe + era * 400
  let doy := doe - (365 * yoe + yoe / 4 - yoe / 100)
  let mp := (5 * doy + 2) / 153
  let d := doy - (153 * mp + 2) / 5 + 1
  let m := if mp < 10 then mp + 3 else mp - 9
  (if m ≤ 2 then y0 + 1 else y0, m, d)

def digitChar (n : ℕ) : Char := Char.ofNat (48 + n % 10)

def pad2 (n : ℕ) : List Char := [digitChar (n / 10), digitChar n]

def pad4 (n : ℕ) : List Char :=
  [digitChar (n / 1000), digitChar (n / 100), digitChar (n / 10), digitChar n]

def pad6 (n : ℕ) : List Char :=
  [digitChar (n / 100000), digitChar (n / 10000), digitChar (n / 1000),
   digitChar (n / 100), digitChar (n / 10), digitChar n]

/-- Unpadded decimal rendering of a year value (model of JS `${y}` for
the reachable range `y ≤ 9999`; a match of `MDY_RE` has at most 4 year
digits). -/
def natDec (n : ℕ) : List Char :=
  if n < 10 then [digitChar n]
  else if n < 100 then pad2 n
  else if n < 1000 then [digitChar (n / 100), digitChar (n / 10), digitChar n]
  else pad4 n

/-- Model of `d.toISOString().slice(0, 10)` for a day number: 4-digit
years (0–9999) are zero-padded, years above 9999 keep 10 characters of
the expanded `+YYYYYY-MM` form of `toISOString`, and days before
0000-01-01 (reachable only one day past the edge, via a positive UTC
offset on `0000-01-01T…`) keep 10 characters of the negative expanded
`-YYYYYY-MM` form. The civil conversion is shifted by one extra
146097-day era (exactly 400 Gregorian years, subtracted from the year
again) so that every reachable day converts inside `ℕ`. -/
def toISODateOfDay (day : ℤ) : String :=
  if day < -719528 then
    match civilFromDaysN (day + 865565).toNat with
    | (y400, m, _) => ⟨'-' :: (pad6 (400 - y400) ++ '-' :: pad2 m)⟩
  else
    match civilFromDaysN (day + 865565).toNat with
    | (y400, m, d) =>
      if y400 - 400 ≤ 9999 then ⟨pad4 (y400 - 400) ++ '-' :: (pad2 m ++ '-' :: pad2 d)⟩
      else ⟨'+' :: (pad6 (y400 - 400) ++ '-' :: pad2 m)⟩

/-- The explicit UTC-offset suffix of an ISO date-time: `Z`, or
`±HH:MM`. Returns the offset in milliseconds; `some none` marks a
well-shaped offset with out-of-range values (all engines treat the
string as an invalid date), `none` anything else — in particular the
empty suffix, whose date-time is interpreted in the host's local time
zone and therefore lies outside this model. -/
def isoOffset : List Char → Option (Option ℤ)
  | ['Z'] => some (some 0)
  | [sg, a, b, ':', c, d] =>
    if (sg = '+' ∨ sg = '-') ∧ [a, b, c, d].all Char.isDigit then
      if digitsVal [a, b] ≤ 23 ∧ digitsVal [c, d] ≤ 59 then
        if sg = '+' then
          some (some ((digitsVal [a, b] * 3600000 + digitsVal [c, d] * 60000 : ℕ) : ℤ))
        else
          some (some (-((digitsVal [a, b] * 3600000 + digitsVal [c, d] * 60000 : ℕ) : ℤ)))
      else some none
    else none
  | _ => none

/-- Assembles a time-of-day and an offset result into the signed
millisecond distance from the date's UTC midnight: valid when the
components are in range (hour 24 only as exactly `24:00:00.000`),
`some none` when a well-shaped component is out of range. -/
def tailResult (hv mv sv fv : ℕ) (off : Option (Option ℤ)) : Option (Option ℤ) :=
  match off with
  | none => none
  | some none => some none
  | some (some o) =>
    if (hv ≤ 23 ∧ mv ≤ 59 ∧ sv ≤ 59) ∨ (hv = 24 ∧ mv = 0 ∧ sv = 0 ∧ fv = 0) then
      some (some (((hv * 3600000 + mv * 60000 + sv * 1000 + fv : ℕ) : ℤ) - o))
    else some none

/-- The characters of an ISO input after the `YYYY-MM-DD` prefix, per
the ECMAScript Date Time String Format: empty (a date-only form, UTC),
or `THH:MM`, `THH:MM:SS`, `THH:MM:SS.sss` with an explicit `Z`/`±HH:MM`
offset. `some (some delta)`: modelled and valid, `delta` the signed ms
distance from the date's UTC midnight; `some none`: modelled shape with
out-of-range values (invalid date in every engine); `none`: outside the
model — offset-less date-times (local time, environment-dependent) and
tails the format does not cover, which `Date.parse` leaves to
implementation-specific heuristics. -/
def isoTimeTail : List Char → Option (Option ℤ)
  | [] => some (some 0)
  | 'T' :: h1 :: h2 :: ':' :: m1 :: m2 :: rest =>
    if [h1, h2, m1, m2].all Char.isDigit then
      match rest with
      | ':' :: s1 :: s2 :: rest2 =>
        if [s1, s2].all Char.isDigit then
          match rest2 with
          | '.' :: d1 :: d2 :: d3 :: rest3 =>
            if [d1, d2, d3].all Char.isDigit then
              tailResult (digitsVal [h1, h2]) (digitsVal [m1, m2]) (digitsVal [s1, s2])
                (digitsVal [d1, d2, d3]) (isoOffset rest3)
            else none
          | _ =>
            tailResult (digitsVal [h1, h2]) (digitsVal [m1, m2]) (digitsVal [s1, s2]) 0
              (isoOffset rest2)
        else none
      | _ => tailResult (digitsVal [h1, h2]) (digitsVal [m1, m2]) 0 0 (isoOffset rest)
    else none
  | _ => none

/-- Core of `new Date(string)` on the modelled ISO fragment: the civil
day of the `YYYY-MM-DD` prefix (validated against the calendar) and the
signed ms distance of the parsed instant from that day's UTC
midnight. -/
def isoCoreParse (s : String) : Option (ℤ × ℤ) :=
  match s.data with
  | a :: b :: c :: d :: '-' :: e :: f :: '-' :: g :: h :: tail =>
    if [a, b, c, d, e, f, g, h].all Char.isDigit then
      let y := digitsVal [a, b, c, d]
      let m := digitsVal [e, f]
      let dd := digitsVal [g, h]
      match isoTimeTail tail with
      | some (some delta) =>
        if 1 ≤ m ∧ m ≤ 12 ∧ 1 ≤ dd ∧ dd ≤ daysInMonth y m then
          some (daysFromCivil y m dd, delta)
        else none
      | _ => none
    else none
  | _ => none

/-- How many whole days the instant's offset `delta` moves the UTC date
off the written one: `⌊delta / 86400000⌋` for the reachable
`delta ∈ (-86400000, 2·86400000)`. -/
def dayShift (delta : ℤ) : ℤ :=
  if delta < 0 then -1 else if delta < 86400000 then 0 else 1

/-- Model of `new Date(string)` on the modelled ISO fragment (date-only
forms, and date-times with an explicit UTC offset); returns the UTC day
number of the parsed instant. Inputs outside the fragment are mapped to
`none` and excluded from the claims through `isoDomain`. -/
def jsDateParse (s : String) : Option ℤ :=
  (isoCoreParse s).map (fun p => p.1 + dayShift p.2)

/-- Model of `new Date(string)` as epoch milliseconds, same fragment
(the parsed instants lie far inside the ±8.64e15 ms clip of the JS time
value). -/
def jsDateParseMs (s : String) : Option ℤ :=
  (isoCoreParse s).map (fun p => p.1 * 86400000 + p.2)

/-- Embedding of `ISO_RE.test` (`/^\d{4}-\d{2}-\d{2}/`, unanchored at
the end). -/
def isoReTest (s : String) : Bool :=
  match s.data with
  | a :: b :: c :: d :: '-' :: e :: f :: '-' :: g :: h :: _ =>
    [a, b, c, d, e, f, g, h].all Char.isDigit
  | _ => false

/-- The trimmed inputs on which the model of `new Date` is exact: those
that do not reach the ISO branch at all, and ISO-prefixed ones whose
tail is date-only or a `T`-time with explicit UTC offset. For the rest
(offset-less date-times, host-parser fallback formats) the source's
result depends on the environment, and the claims exclude them. -/
def isoDomain (t : String) : Bool :=
  !(isoReTest t) || (isoTimeTail (t.data.drop 10)).isSome

/-- Does a string match `/^\d{4}-\d{2}-\d{2}$/` (anchored both ends)? -/
def matchesYMD (s : String) : Bool :=
  match s.data with
  | [a, b, c, d, '-', e, f, '-', g, h] => [a, b, c, d, e, f, g, h].all Char.isDigit
  | _ => false

-- ── normalizeDate (normalizer.js) ───────────────────────────────────

/-- Truncation toward zero (JS `ToIntegerOrInfinity`). -/
def truncQ (q : ℚ) : ℤ := if 0 ≤ q then ⌊q⌋ else ⌈q⌉

/-- Embedding of `excelSerialToDate`'s day computation:
`Date.UTC(1899, 11, 30 + serial)` normalizes the day-of-month argument,
truncating the fractional serial. -/
def excelSerialDay (q : ℚ) : ℤ := daysFromCivil 1899 12 1 + truncQ (30 + q) - 1

/-- Embedding of `formatYMD` from `normalizer.js`: rejects month outside
1–12 and day outside 1–31, and renders the year unpadded. -/
def formatYMD (y m d : ℕ) : Option String :=
  if m < 1 ∨ 12 < m ∨ d < 1 ∨ 31 < d then none
  else some ⟨natDec y ++ '-' :: (pad2 m ++ '-' :: pad2 d)⟩

/-- The `MDY_RE` match (`/^(\d{1,2})[\/\-](\d{1,2})[\/\-](\d{4})$/`):
returns `(m, d, y)` digit-group values. -/
def mdyParse (l : List Char) : Option (ℕ × ℕ × ℕ) :=
  let mds := l.takeWhile Char.isDigit
  if mds.length = 0 ∨ 2 < mds.length then none
  else
    match l.dropWhile Char.isDigit with
    | s1 :: r2 =>
      if s1 = '/' ∨ s1 = '-' then
        let dds := r2.takeWhile Char.isDigit
        if dds.length = 0 ∨ 2 < dds.length then none
        else
          match r2.dropWhile Char.isDigit with
          | s2 :: r4 =>
            if s2 = '/' ∨ s2 = '-' then
              let yds := r4.takeWhile Char.isDigit
              if yds.length = 4 ∧ r4.dropWhile Char.isDigit = [] then
                some (digitsVal mds, digitsVal dds, digitsVal yds)
              else none
            else none
          | [] => none
      else none
    | [] => none

/-- The `M/D/YYYY` fallthrough branch of `normalizeDate`. -/
def mdyBranch (t : String) : Option String :=
  match mdyParse t.data with
  | some (m, d, y) => formatYMD y m d
  | none => none

/-- Embedding of `normalizeDate` from `normalizer.js`: trim; empty →
null; ISO-prefixed strings go through `new Date`; finite numeric strings
strictly between 30000 and 60000 are spreadsheet serials from epoch
1899-12-30; `M/D/YYYY` (or `-`-separated) dates are validated by
`formatYMD`; anything else is null. -/
def normalizeDate (raw : String) : Option String :=
  let t := jsTrim raw
  if t = "" then none
  else if isoReTest t then (jsDateParse t).map toISODateOfDay
  else
    match jsStrToNum t.data with
    | some q =>
      if 30000 < q ∧ q < 60000 then some (toISODateOfDay (excelSerialDay q))
      else mdyBranch t
    | none => mdyBranch t

/-- `normalizeDate` lifted to a nullable argument (`!raw` returns null). -/
def normalizeDateOpt (raw : Option String) : Option String :=
  match raw with
  | none => none
  | some s => normalizeDate s

-- ── Helper lemmas for the normalizeDate characterization (C2) ───────

theorem digitChar_isDigit (n : ℕ) : (digitChar n).isDigit = true := by
  unfold digitChar
  have h : n % 10 < 10 := Nat.mod_lt _ (by norm_num)
  set k := n % 10 with hk
  interval_cases k <;> decide

theorem isDigit_toNat (c : Char) (h : c.isDigit = true) :
    48 ≤ c.toNat ∧ c.toNat ≤ 57 := by
  simp [Char.isDigit] at h
  obtain ⟨h1, h2⟩ := h
  constructor
  · exact h1
  · exact h2

/-- Strings assembled from a 4-digit padded year and 2-digit padded
month/day match `/^\d{4}-\d{2}-\d{2}$/`. -/
theorem matchesYMD_pads (y m d : ℕ) :
    matchesYMD ⟨pad4 y ++ '-' :: (pad2 m ++ '-' :: pad2 d)⟩ = true := by
  simp [matchesYMD, pad4, pad2, digitChar_isDigit]

theorem matchesYMD_length (s : String) (h : matchesYMD s = true) :
    s.data.length = 10 := by
  unfold matchesYMD at h
  split at h
  · next heq => rw [heq]; rfl
  · simp at h

/-- Year bound for the civil conversion on the reachable day range. -/
theorem civil_year_le (sday : ℕ) (h : sday ≤ 3798461) :
    (civilFromDaysN sday).1 ≤ 10399 := by
  simp only [civilFromDaysN]
  set doe := sday % 146097 with hdoe_def
  set era := sday / 146097 with hera_def
  set num := doe - doe / 1460 + doe / 36524 - doe / 146096 with hnum_def
  set yoe := num / 365 with hyoe_def
  set doy := doe - (365 * yoe + yoe / 4 - yoe / 100) with hdoy_def
  set mp := (5 * doy + 2) / 153 with hmp_def
  have h2 : doe < 146097 := by omega
  have h3 : yoe ≤ 399 := by omega
  split <;> split <;> omega

/-- Day-number bounds of `daysFromCivil` on calendar-plausible inputs. -/
theorem daysFromCivil_bounds (y m d : ℕ) (hy : y ≤ 9999) (hm1 : 1 ≤ m)
    (hm2 : m ≤ 12) (hd1 : 1 ≤ d) (hd2 : d ≤ 31) :
    -719528 ≤ daysFromCivil y m d ∧ daysFromCivil y m d ≤ 2932896 := by
  simp only [daysFromCivil]
  have hj : (if 2 < m then m - 3 else m + 9) ≤ 11 := by split <;> omega
  split <;> [skip; split <;> split] <;> omega

theorem daysInMonth_le (y m : ℕ) : daysInMonth y m ≤ 31 := by
  unfold daysInMonth
  split
  · split <;> omega
  · split <;> omega

theorem foldl_digits_lt (ds : List Char) (h : ∀ c ∈ ds, c.isDigit = true) :
    ∀ a : ℕ, ds.foldl (fun a c => a * 10 + (c.toNat - 48)) a < (a + 1) * 10 ^ ds.length := by
  induction ds with
  | nil => intro a; simp
  | cons c t ih =>
    intro a
    have hc := isDigit_toNat c (h c (List.mem_cons_self _ _))
    have ht := ih (fun x hx => h x (List.mem_cons_of_mem _ hx))
    have h1 := ht (a * 10 + (c.toNat - 48))
    simp only [List.foldl_cons, List.length_cons]
    calc List.foldl (fun a c => a * 10 + (c.toNat - 48)) (a * 10 + (c.toNat - 48)) t
        < (a * 10 + (c.toNat - 48) + 1) * 10 ^ t.length := h1
      _ ≤ (a + 1) * 10 ^ (t.length + 1) := by
          have : a * 10 + (c.toNat - 48) + 1 ≤ (a + 1) * 10 := by omega
          calc (a * 10 + (c.toNat - 48) + 1) * 10 ^ t.length
              ≤ (a + 1) * 10 * 10 ^ t.length := Nat.mul_le_mul_right _ this
            _ = (a + 1) * 10 ^ (t.length + 1) := by ring

theorem digitsVal_lt (ds : List Char) (h : ∀ c ∈ ds, c.isDigit = true) :
    digitsVal ds < 10 ^ ds.length := by
  have := foldl_digits_lt ds h 0
  simpa [digitsVal] using this

theorem digit_ne (c x : Char) (hc : c.isDigit = true) (hx : ¬ x.isDigit = true) :
    ¬ c = x := fun h => hx (h ▸ hc)

/-- A string matching `/^\d{4}-\d{2}-\d{2}/` starts with four digits and
a dash. -/
theorem isoReTest_shape (s : String) (h : isoReTest s = true) :
    ∃ a b c d rest, s.data = a :: b :: c :: d :: '-' :: rest ∧
      a.isDigit = true ∧ b.isDigit = true ∧ c.isDigit = true ∧ d.isDigit = true := by
  unfold isoReTest at h
  split at h
  · next a b c d e f g h9 rest heq =>
    simp only [List.all_cons, List.all_nil, Bool.and_eq_true] at h
    exact ⟨a, b, c, d, _, heq, h.1, h.2.1, h.2.2.1, h.2.2.2.1⟩
  · exact absurd h (by simp)

/-- A string starting with four digits and a dash is not numeric for
`Number()`. -/
theorem num_none_of_dash (a b c d : Char) (rest : List Char)
    (ha : a.isDigit = true) (hb : b.isDigit = true) (hc : c.isDigit = true)
    (hd : d.isDigit = true) :
    jsStrToNum (a :: b :: c :: d :: '-' :: rest) = none := by
  have hbx := digit_ne b 'x' hb (by decide)
  have hbX := digit_ne b 'X' hb (by decide)
  have hbo := digit_ne b 'o' hb (by decide)
  have hbO := digit_ne b 'O' hb (by decide)
  have hbb := digit_ne b 'b' hb (by decide)
  have hbB := digit_ne b 'B' hb (by decide)
  have hap := digit_ne a '+' ha (by decide)
  have ham := digit_ne a '-' ha (by decide)
  simp [jsStrToNum, decSigned, parseDecTail, parseExpTail, takeDigits,
    List.takeWhile_cons, List.dropWhile_cons, ha, hb, hc, hd,
    hbx, hbX, hbo, hbO, hbb, hbB, hap, ham]

/-- Structural facts holding whenever `MDY_RE` matches: one or two
leading digits followed by a `/` or `-` separator. -/
theorem mdyParse_facts (l : List Char) (mdy : ℕ × ℕ × ℕ)
    (h : mdyParse l = some mdy) :
    (1 ≤ (l.takeWhile Char.isDigit).length ∧ (l.takeWhile Char.isDigit).length ≤ 2) ∧
      ∃ s1 r2, l.dropWhile Char.isDigit = s1 :: r2 ∧ (s1 = '/' ∨ s1 = '-') := by
  simp only [mdyParse] at h
  by_cases h1 : (l.takeWhile Char.isDigit).length = 0 ∨ 2 < (l.takeWhile Char.isDigit).length
  · rw [if_pos h1] at h
    exact absurd h (by simp)
  · rw [if_neg h1] at h
    refine ⟨by omega, ?_⟩
    split at h
    · next s1 r2 heq =>
      by_cases hs1 : s1 = '/' ∨ s1 = '-'
      · exact ⟨s1, r2, heq, hs1⟩
      · rw [if_neg hs1] at h
        exact absurd h (by simp)
    · exact absurd h (by simp)

/-- The year group of an `MDY_RE` match has four digits, so its value is
at most 9999 (and month/day values are at most 99). -/
theorem mdyParse_val_bounds (l : List Char) (m d y : ℕ)
    (h : mdyParse l = some (m, d, y)) : m ≤ 99 ∧ d ≤ 99 ∧ y ≤ 9999 := by
  simp only [mdyParse] at h
  by_cases h1 : (l.takeWhile Char.isDigit).length = 0 ∨ 2 < (l.takeWhile Char.isDigit).length
  · rw [if_pos h1] at h; exact absurd h (by simp)
  · rw [if_neg h1] at h
    split at h
    case _ s1 r2 heq =>
      by_cases hs1 : s1 = '/' ∨ s1 = '-'
      · rw [if_pos hs1] at h
        by_cases h2 : (r2.takeWhile Char.isDigit).length = 0 ∨ 2 < (r2.takeWhile Char.isDigit).length
        · rw [if_pos h2] at h; exact absurd h (by simp)
        · rw [if_neg h2] at h
          split at h
          case _ s2 r4 heq2 =>
            by_cases hs2 : s2 = '/' ∨ s2 = '-'
            · rw [if_pos hs2] at h
              by_cases h3 : (r4.takeWhile Char.isDigit).length = 4 ∧ r4.dropWhile Char.isDigit = []
              · rw [if_pos h3] at h
                have hmv : digitsVal (l.takeWhile Char.isDigit) < 10 ^ (l.takeWhile Char.isDigit).length :=
                  digitsVal_lt _ (fun c hcmem => List.mem_takeWhile_imp hcmem)
                have hdv : digitsVal (r2.takeWhile Char.isDigit) < 10 ^ (r2.takeWhile Char.isDigit).length :=
                  digitsVal_lt _ (fun c hcmem => List.mem_takeWhile_imp hcmem)
                have hyv : digitsVal (r4.takeWhile Char.isDigit) < 10 ^ (r4.takeWhile Char.isDigit).length :=
                  digitsVal_lt _ (fun c hcmem => List.mem_takeWhile_imp hcmem)
                have hml : (l.takeWhile Char.isDigit).length ≤ 2 := by omega
                have hdl : (r2.takeWhile Char.isDigit).length ≤ 2 := by omega
                have hm10 : (10 : ℕ) ^ (l.takeWhile Char.isDigit).length ≤ 10 ^ 2 :=
                  Nat.pow_le_pow_right (by norm_num) hml
                have hd10 : (10 : ℕ) ^ (r2.takeWhile Char.isDigit).length ≤ 10 ^ 2 :=
                  Nat.pow_le_pow_right (by norm_num) hdl
                simp only [Option.some.injEq, Prod.mk.injEq] at h
                obtain ⟨hm, hd, hy⟩ := h
                rw [h3.1] at hyv
                norm_num at hm10 hd10 hyv
                omega
              · rw [if_neg h3] at h; exact absurd h (by simp)
            · rw [if_neg hs2] at h; exact absurd h (by simp)
          case _ => exact absurd h (by simp)
      · rw [if_neg hs1] at h; exact absurd h (by simp)
    case _ => exact absurd h (by simp)

theorem head_digit_of_tw (l : List Char) (h : l.takeWhile Char.isDigit ≠ []) :
    ∃ c t, l = c :: t ∧ Char.isDigit c = true := by
  cases l with
  | nil => simp [List.takeWhile] at h
  | cons c t =>
    by_cases hc : c.isDigit
    · exact ⟨c, t, rfl, hc⟩
    · rw [List.takeWhile_cons_of_neg hc] at h
      exact absurd rfl h

/-- `parseDecTail` fails when the maximal digit prefix is followed by a
character that can continue neither a fraction nor an exponent. -/
theorem parseDecTail_none (neg : Bool) (l : List Char) (s1 : Char) (r2 : List Char)
    (hdrop : l.dropWhile Char.isDigit = s1 :: r2)
    (hdot : ¬ s1 = '.') (he1 : ¬ s1 = 'e') (he2 : ¬ s1 = 'E')
    (htw : l.takeWhile Char.isDigit ≠ []) :
    parseDecTail neg l = none := by
  simp only [parseDecTail]
  rw [hdrop]
  split
  · next r2' heq =>
    exact absurd (List.cons.inj heq).1 hdot
  · rw [if_neg htw]
    simp [parseExpTail, he1, he2]

/-- `Number()` fails on any string made of one or more digits followed
by a character that starts neither a radix prefix, a fraction, nor an
exponent. -/
theorem jsStrToNum_none_core (l : List Char) (s1 : Char) (r2 : List Char)
    (hdrop : l.dropWhile Char.isDigit = s1 :: r2)
    (htw : l.takeWhile Char.isDigit ≠ [])
    (hdot : ¬ s1 = '.') (he1 : ¬ s1 = 'e') (he2 : ¬ s1 = 'E')
    (hsec : ∀ x, l.tail.head? = some x →
      ¬ x = 'x' ∧ ¬ x = 'X' ∧ ¬ x = 'o' ∧ ¬ x = 'O' ∧ ¬ x = 'b' ∧ ¬ x = 'B') :
    jsStrToNum l = none := by
  obtain ⟨c1, t, rfl, hc1⟩ := head_digit_of_tw l htw
  have hp := digit_ne c1 '+' hc1 (by decide)
  have hm := digit_ne c1 '-' hc1 (by decide)
  have hdec : decSigned (c1 :: t) = none := by
    unfold decSigned
    rw [if_neg (by simp [hp]), if_neg (by simp [hm])]
    exact parseDecTail_none false _ s1 r2 hdrop hdot he1 he2 htw
  simp only [jsStrToNum, List.tail_cons] at hsec ⊢
  rw [if_neg, if_neg, if_neg]
  · exact hdec
  · rintro ⟨rfl, hx | hx⟩ <;> [exact (hsec _ hx).2.2.2.2.1 rfl; exact (hsec _ hx).2.2.2.2.2 rfl]
  · rintro ⟨rfl, hx | hx⟩ <;> [exact (hsec _ hx).2.2.1 rfl; exact (hsec _ hx).2.2.2.1 rfl]
  · rintro ⟨rfl, hx | hx⟩ <;> [exact (hsec _ hx).1 rfl; exact (hsec _ hx).2.1 rfl]

/-- A string matched by `MDY_RE` is not numeric for `Number()`. -/
theorem num_none_of_mdy (l : List Char) (mdy : ℕ × ℕ × ℕ)
    (h : mdyParse l = some mdy) : jsStrToNum l = none := by
  obtain ⟨⟨hlen1, _⟩, s1, r2, hdrop, hs1⟩ := mdyParse_facts l mdy h
  have htw : l.takeWhile Char.isDigit ≠ [] := by
    intro he
    rw [he] at hlen1
    simp at hlen1
  refine jsStrToNum_none_core l s1 r2 hdrop htw ?_ ?_ ?_ ?_
  · rcases hs1 with rfl | rfl <;> decide
  · rcases hs1 with rfl | rfl <;> decide
  · rcases hs1 with rfl | rfl <;> decide
  · intro x hx
    obtain ⟨c1, t, rfl, hc1⟩ := head_digit_of_tw l htw
    simp only [List.tail_cons] at hx
    cases t with
    | nil => simp at hx
    | cons x2 t2 =>
      simp only [List.head?] at hx
      obtain rfl : x = x2 := (Option.some.inj hx).symm
      by_cases hx2 : x.isDigit
      · exact ⟨digit_ne x 'x' hx2 (by decide), digit_ne x 'X' hx2 (by decide),
          digit_ne x 'o' hx2 (by decide), digit_ne x 'O' hx2 (by decide),
          digit_ne x 'b' hx2 (by decide), digit_ne x 'B' hx2 (by decide)⟩
      · have hdw : (c1 :: x :: t2).dropWhile Char.isDigit = x :: t2 := by
          rw [List.dropWhile_cons_of_pos hc1, List.dropWhile_cons_of_neg hx2]
        rw [hdw] at hdrop
        obtain rfl : s1 = x := ((List.cons.inj hdrop).1).symm
        rcases hs1 with h1 | h1 <;> rw [h1] <;> exact ⟨by decide, by decide, by decide,
          by decide, by decide, by decide⟩

/-- A string matched by `MDY_RE` does not match `ISO_RE`. -/
theorem iso_false_of_mdy (s : String) (mdy : ℕ × ℕ × ℕ)
    (h : mdyParse s.data = some mdy) : isoReTest s = false := by
  by_contra hn
  have hiso : isoReTest s = true := by
    revert hn
    cases isoReTest s <;> simp
  obtain ⟨a, b, c, d, rest, heq, ha, hb, hc, hd⟩ := isoReTest_shape s hiso
  obtain ⟨⟨_, hlen2⟩, _⟩ := mdyParse_facts _ _ h
  rw [heq] at hlen2
  simp [List.takeWhile_cons, ha, hb, hc, hd] at hlen2

/-- Bounds of an explicit UTC offset: at most ±23:59. -/
theorem isoOffset_bounds (r : List Char) (o : ℤ) (h : isoOffset r = some (some o)) :
    -86340000 ≤ o ∧ o ≤ 86340000 := by
  unfold isoOffset at h
  split at h
  · obtain rfl : (0 : ℤ) = o := Option.some.inj (Option.some.inj h)
    norm_num
  · next sg a b c d =>
    split at h
    · next hshape =>
      split at h
      · next hrange =>
        obtain ⟨h1, h2⟩ := hrange
        split at h
        · obtain rfl := Option.some.inj (Option.some.inj h)
          omega
        · obtain rfl := Option.some.inj (Option.some.inj h)
          omega
      · exact absurd (Option.some.inj h) (by simp)
    · exact absurd h (by simp)
  · exact absurd h (by simp)

/-- Bounds of the ms distance a valid time-and-offset pair contributes:
between −23:59 and 24:00 + 23:59. -/
theorem tailResult_bounds (hv mv sv fv : ℕ) (off : Option (Option ℤ)) (delta : ℤ)
    (hfv : fv ≤ 999)
    (hoff : ∀ o, off = some (some o) → -86340000 ≤ o ∧ o ≤ 86340000)
    (h : tailResult hv mv sv fv off = some (some delta)) :
    -86340000 ≤ delta ∧ delta ≤ 172740000 := by
  unfold tailResult at h
  split at h
  · exact absurd h (by simp)
  · exact absurd (Option.some.inj h) (by simp)
  · next o =>
    have ho := hoff o rfl
    split at h
    · next hval =>
      have hd := Option.some.inj (Option.some.inj h)
      omega
    · exact absurd (Option.some.inj h) (by simp)

/-- All-digit facts of a cons-list literal, unpacked for `digitsVal`
bounds. -/
theorem all_digits_forall (l : List Char) (h : l.all Char.isDigit = true) :
    ∀ c ∈ l, c.isDigit = true := by
  intro c hc
  exact List.all_eq_true.1 h c hc

/-- Bounds of the ms distance `isoTimeTail` reports on a valid tail. -/
theorem isoTimeTail_bounds (tail : List Char) (delta : ℤ)
    (h : isoTimeTail tail = some (some delta)) :
    -86340000 ≤ delta ∧ delta ≤ 172740000 := by
  unfold isoTimeTail at h
  split at h
  · obtain rfl : (0 : ℤ) = delta := Option.some.inj (Option.some.inj h)
    norm_num
  · next h1 h2 m1 m2 rest =>
    split at h
    · split at h
      · next s1 s2 rest2 =>
        split at h
        · split at h
          · next d1 d2 d3 rest3 =>
            split at h
            · next hd3 =>
              refine tailResult_bounds _ _ _ _ _ _ ?_
                (fun o ho => isoOffset_bounds _ _ ho) h
              have h1000 : digitsVal [d1, d2, d3] < 1000 := by
                simpa using digitsVal_lt [d1, d2, d3] (all_digits_forall _ hd3)
              omega
            · exact absurd h (by simp)
          · exact tailResult_bounds _ _ _ _ _ _ (by norm_num)
              (fun o ho => isoOffset_bounds _ _ ho) h
        · exact absurd h (by simp)
      · exact tailResult_bounds _ _ _ _ _ _ (by norm_num)
          (fun o ho => isoOffset_bounds _ _ ho) h
    · exact absurd h (by simp)
  · exact absurd h (by simp)

/-- Any pair produced by `isoCoreParse` has its civil day in the
4-digit-year range and its ms distance within a day of either side. -/
theorem isoCoreParse_bounds (s : String) (p : ℤ × ℤ) (h : isoCoreParse s = some p) :
    (-719528 ≤ p.1 ∧ p.1 ≤ 2932896) ∧ (-86340000 ≤ p.2 ∧ p.2 ≤ 172740000) := by
  simp only [isoCoreParse] at h
  split at h
  · next a b c d e f g h9 tail heq =>
    split at h
    · next hdig =>
      split at h
      · next delta htt =>
        split at h
        · next hb =>
          obtain rfl : (daysFromCivil (digitsVal [a, b, c, d]) (digitsVal [e, f])
              (digitsVal [g, h9]), delta) = p := Option.some.inj h
          refine ⟨?_, isoTimeTail_bounds _ _ htt⟩
          simp only [List.all_cons, List.all_nil, Bool.and_eq_true] at hdig
          have hy : digitsVal [a, b, c, d] < 10 ^ 4 := by
            have := digitsVal_lt [a, b, c, d] (by
              intro x hx
              simp at hx
              rcases hx with rfl | rfl | rfl | rfl <;> tauto)
            simpa using this
          have hmon := daysInMonth_le (digitsVal [a, b, c, d]) (digitsVal [e, f])
          exact daysFromCivil_bounds _ _ _ (by omega) (by omega) (by omega)
            (by omega) (by omega)
        · exact absurd h (by simp)
      · exact absurd h (by simp)
    · exact absurd h (by simp)
  · exact absurd h (by simp)

theorem dayShift_bounds (delta : ℤ) : -1 ≤ dayShift delta ∧ dayShift delta ≤ 1 := by
  unfold dayShift
  split
  · omega
  · split <;> omega

/-- Any day number produced by `jsDateParse` lies at most one day
outside the 4-digit-year range (the offset moves the written date by at
most one day). -/
theorem jsDateParse_bounds (s : String) (day : ℤ) (h : jsDateParse s = some day) :
    -719529 ≤ day ∧ day ≤ 2932897 := by
  simp only [jsDateParse, Option.map_eq_some'] at h
  obtain ⟨p, hp, hval⟩ := h
  obtain ⟨⟨hb1, hb2⟩, _⟩ := isoCoreParse_bounds s p hp
  have hd := dayShift_bounds p.2
  omega

/-- Floor bounds for the serial-day computation. -/
theorem truncQ_serial_bounds (q : ℚ) (h1 : 30000 < q) (h2 : q < 60000) :
    30030 ≤ truncQ (30 + q) ∧ truncQ (30 + q) ≤ 60029 := by
  unfold truncQ
  have h0 : (0 : ℚ) ≤ 30 + q := by linarith
  rw [if_pos h0]
  constructor
  · exact Int.le_floor.mpr (by push_cast; linarith)
  · have hlt : (⌊30 + q⌋ : ℤ) < 60030 := Int.floor_lt.mpr (by push_cast; linarith)
    omega

/-- Within the reachable day range, `toISODateOfDay` renders a string
matching `/^\d{4}-\d{2}-\d{2}$/`. -/
theorem matchesYMD_toISO (day : ℤ) (hlo : -719528 ≤ day) (hhi : day ≤ 2932896) :
    matchesYMD (toISODateOfDay day) = true := by
  unfold toISODateOfDay
  rw [if_neg (by omega)]
  have hs : (day + 865565).toNat ≤ 3798461 := by omega
  have hy := civil_year_le _ hs
  rcases hc : civilFromDaysN (day + 865565).toNat with ⟨y, m, d⟩
  rw [hc] at hy
  simp only at hy
  dsimp only
  rw [if_pos (by omega)]
  exact matchesYMD_pads _ _ _

/-- The one reachable day before 0000-01-01 renders in the sliced
negative expanded-year form, which the regex rejects. -/
theorem toISO_low_edge : matchesYMD (toISODateOfDay (-719529)) = false := by decide

/-- The one reachable day after 9999-12-31 renders in the sliced
positive expanded-year form, which the regex rejects. -/
theorem toISO_high_edge : matchesYMD (toISODateOfDay 2932897) = false := by decide

theorem natDec_high (y : ℕ) (h1 : 1000 ≤ y) : natDec y = pad4 y := by
  unfold natDec
  rw [if_neg (by omega), if_neg (by omega), if_neg (by omega)]

theorem natDec_low_len (y : ℕ) (h : y < 1000) : (natDec y).length ≤ 3 := by
  unfold natDec
  by_cases h1 : y < 10
  · rw [if_pos h1]; simp
  · rw [if_neg h1]
    by_cases h2 : y < 100
    · rw [if_pos h2]; simp [pad2]
    · rw [if_neg h2, if_pos h]; simp

theorem excelSerialDay_bounds (q : ℚ) (h1 : 30000 < q) (h2 : q < 60000) :
    -719528 ≤ excelSerialDay q ∧ excelSerialDay q ≤ 2932896 := by
  obtain ⟨hl, hh⟩ := truncQ_serial_bounds q h1 h2
  have hbase : daysFromCivil 1899 12 1 = -25598 := by decide
  unfold excelSerialDay
  rw [hbase]
  omega

-- ── The spec's input categories for normalizeDate (C2) ──────────────

/-- Spec category: a valid ISO `YYYY-MM-DD`-prefixed date — date-only,
or a date-time with explicit UTC offset — whose parsed instant falls on
a UTC day between 0000-01-01 and 9999-12-31, so that
`toISOString().slice(0, 10)` renders a zero-padded 4-digit year. -/
def validISOInput (s : String) : Prop :=
  isoReTest (jsTrim s) = true ∧
  ∃ day, jsDateParse (jsTrim s) = some day ∧ -719528 ≤ day ∧ day ≤ 2932896

/-- The era-edge carve-out: a valid ISO date-time whose explicit offset
moves the UTC day before 0000-01-01 or after 9999-12-31; the sliced
`toISOString` then shows an expanded-year form that fails the regex,
though the result is non-null. -/
def isoEdgeInput (s : String) : Prop :=
  isoReTest (jsTrim s) = true ∧
  ∃ day, jsDateParse (jsTrim s) = some day ∧ (day < -719528 ∨ 2932896 < day)

/-- Spec category: an `M/D/YYYY` or `M-D-YYYY` date (1–2 digit month and
day, 4-digit year) with month 1–12 and day 1–31; the amendment restricts
the year's numeric value to at least 1000. -/
def validMDYInput (s : String) : Prop :=
  ∃ m d y, mdyParse (jsTrim s).data = some (m, d, y) ∧
    1 ≤ m ∧ m ≤ 12 ∧ 1 ≤ d ∧ d ≤ 31 ∧ 1000 ≤ y

/-- The inputs the amendment carves out: month/day in range but a
zero-padded year below 1000, which `formatYMD` renders unpadded. -/
def lowYearMDYInput (s : String) : Prop :=
  ∃ m d y, mdyParse (jsTrim s).data = some (m, d, y) ∧
    1 ≤ m ∧ m ≤ 12 ∧ 1 ≤ d ∧ d ≤ 31 ∧ y < 1000

/-- Spec category: a bare numeric serial strictly between 30000 and
60000 (via the modelled `Number()`). -/
def validSerialInput (s : String) : Prop :=
  ∃ q, jsStrToNum (jsTrim s).data = some q ∧ 30000 < q ∧ q < 60000

/-- The `M/D/YYYY` continuation of the `normalizeDate` characterization,
shared by the two branches that reach it (non-numeric input, and numeric
input outside the serial range). -/
theorem mdy_case_aux (s : String)
    (hiso : isoReTest (jsTrim s) = false)
    (hser : ¬ validSerialInput s)
    (heval : normalizeDate s = mdyBranch (jsTrim s)) :
    ((∃ out, normalizeDate s = some out ∧ matchesYMD out = true) ↔
      validISOInput s ∨ validMDYInput s ∨ validSerialInput s) ∧
    ((normalizeDate s).isSome = true ↔
      validISOInput s ∨ validMDYInput s ∨ validSerialInput s ∨ lowYearMDYInput s ∨
        isoEdgeInput s) := by
  have hisoC : ¬ validISOInput s := by
    rintro ⟨h1, _⟩
    rw [hiso] at h1
    exact absurd h1 (by simp)
  have hedgeC : ¬ isoEdgeInput s := by
    rintro ⟨h1, _⟩
    rw [hiso] at h1
    exact absurd h1 (by simp)
  cases hm : mdyParse (jsTrim s).data with
  | none =>
    have heval2 : normalizeDate s = none := by rw [heval]; simp [mdyBranch, hm]
    have hmdyC : ¬ validMDYInput s := by
      rintro ⟨m, d, y, hm', _⟩
      rw [hm] at hm'
      exact absurd hm' (by simp)
    have hlowC : ¬ lowYearMDYInput s := by
      rintro ⟨m, d, y, hm', _⟩
      rw [hm] at hm'
      exact absurd hm' (by simp)
    constructor
    · constructor
      · rintro ⟨out, hout, _⟩
        rw [heval2] at hout
        exact absurd hout (by simp)
      · rintro (h | h | h) <;> [exact absurd h hisoC; exact absurd h hmdyC;
          exact absurd h hser]
    · constructor
      · intro h1
        rw [heval2] at h1
        exact absurd h1 (by simp)
      · rintro (h | h | h | h | h) <;> [exact absurd h hisoC; exact absurd h hmdyC;
          exact absurd h hser; exact absurd h hlowC; exact absurd h hedgeC]
  | some mdy =>
    obtain ⟨m, d, y⟩ := mdy
    by_cases hbnd : m < 1 ∨ 12 < m ∨ d < 1 ∨ 31 < d
    · have heval2 : normalizeDate s = none := by
        rw [heval]
        simp only [mdyBranch, hm]
        unfold formatYMD
        rw [if_pos hbnd]
      have hmdyC : ¬ validMDYInput s := by
        rintro ⟨m', d', y', hm', hb1, hb2, hb3, hb4, _⟩
        rw [hm] at hm'
        obtain ⟨rfl, rfl, rfl⟩ : m = m' ∧ d = d' ∧ y = y' := by
          have := Option.some.inj hm'
          exact ⟨congrArg (·.1) this, congrArg (·.2.1) this, congrArg (·.2.2) this⟩
        omega
      have hlowC : ¬ lowYearMDYInput s := by
        rintro ⟨m', d', y', hm', hb1, hb2, hb3, hb4, _⟩
        rw [hm] at hm'
        obtain ⟨rfl, rfl, rfl⟩ : m = m' ∧ d = d' ∧ y = y' := by
          have := Option.some.inj hm'
          exact ⟨congrArg (·.1) this, congrArg (·.2.1) this, congrArg (·.2.2) this⟩
        omega
      constructor
      · constructor
        · rintro ⟨out, hout, _⟩
          rw [heval2] at hout
          exact absurd hout (by simp)
        · rintro (h | h | h) <;> [exact absurd h hisoC; exact absurd h hmdyC;
            exact absurd h hser]
      · constructor
        · intro h1
          rw [heval2] at h1
          exact absurd h1 (by simp)
        · rintro (h | h | h | h | h) <;> [exact absurd h hisoC; exact absurd h hmdyC;
            exact absurd h hser; exact absurd h hlowC; exact absurd h hedgeC]
    · push_neg at hbnd
      obtain ⟨hb1, hb2, hb3, hb4⟩ := hbnd
      have hy9999 : y ≤ 9999 := (mdyParse_val_bounds _ _ _ _ hm).2.2
      have heval2 : normalizeDate s =
          some ⟨natDec y ++ '-' :: (pad2 m ++ '-' :: pad2 d)⟩ := by
        rw [heval]
        simp only [mdyBranch, hm, formatYMD]
        rw [if_neg (by omega)]
      by_cases hy : 1000 ≤ y
      · have hmat : matchesYMD ⟨natDec y ++ '-' :: (pad2 m ++ '-' :: pad2 d)⟩ = true := by
          rw [natDec_high y hy]
          exact matchesYMD_pads _ _ _
        have hvM : validMDYInput s := ⟨m, d, y, hm, by omega, by omega, by omega, by omega, hy⟩
        constructor
        · exact ⟨fun _ => Or.inr (Or.inl hvM), fun _ => ⟨_, heval2, hmat⟩⟩
        · exact ⟨fun _ => Or.inr (Or.inl hvM), fun _ => by rw [heval2]; rfl⟩
      · have hlen : (natDec y).length ≤ 3 := natDec_low_len y (by omega)
        have hnmat : matchesYMD ⟨natDec y ++ '-' :: (pad2 m ++ '-' :: pad2 d)⟩ = false := by
          by_contra hcon
          have htrue : matchesYMD ⟨natDec y ++ '-' :: (pad2 m ++ '-' :: pad2 d)⟩ = true := by
            revert hcon
            cases matchesYMD ⟨natDec y ++ '-' :: (pad2 m ++ '-' :: pad2 d)⟩ <;> simp
          have hlen10 := matchesYMD_length _ htrue
          simp [pad2] at hlen10
          omega
        have hmdyC : ¬ validMDYInput s := by
          rintro ⟨m', d', y', hm', _, _, _, _, hy'⟩
          rw [hm] at hm'
          obtain ⟨rfl, rfl, rfl⟩ : m = m' ∧ d = d' ∧ y = y' := by
            have := Option.some.inj hm'
            exact ⟨congrArg (·.1) this, congrArg (·.2.1) this, congrArg (·.2.2) this⟩
          omega
        have hvL : lowYearMDYInput s :=
          ⟨m, d, y, hm, by omega, by omega, by omega, by omega, by omega⟩
        constructor
        · constructor
          · rintro ⟨out, hout, hmat⟩
            rw [heval2] at hout
            obtain rfl : (⟨natDec y ++ '-' :: (pad2 m ++ '-' :: pad2 d)⟩ : String) = out :=
              Option.some.inj hout
            rw [hnmat] at hmat
            exact absurd hmat (by simp)
          · rintro (h | h | h) <;> [exact absurd h hisoC; exact absurd h hmdyC;
              exact absurd h hser]
        · constructor
          · intro _
            exact Or.inr (Or.inr (Or.inr (Or.inl hvL)))
          · intro _
            rw [heval2]
            rfl

/-- **C2 (amended)** — on the domain where `new Date` is
environment-independent (everything except ISO-prefixed strings whose
tail is neither date-only nor a `T`-time with explicit UTC offset),
`normalizeDate` never throws (it is a total function), and returns a
string matching `/^\d{4}-\d{2}-\d{2}$/` exactly when the input is a
valid ISO date (date-only, or date-time with explicit offset, its UTC
day within years 0–9999 — low years are zero-padded by `toISOString`),
an `M/D/YYYY`-or-`M-D-YYYY` date with month 1–12, day 1–31 *and year
value at least 1000*, or a bare numeric serial strictly between 30000
and 60000. It returns a non-null value exactly on those inputs
together with the in-range `M/D/YYYY` dates whose year value is below
1000 (rendered unpadded, so the regex fails) and the era-edge ISO
date-times whose offset leaves years 0–9999 (sliced expanded-year
form, so the regex fails); on every other input — including empty and
whitespace-only strings — it returns null. -/
theorem C2_normalizeDate_characterization (s : String)
    (_hdom : isoDomain (jsTrim s) = true) :
    ((∃ out, normalizeDate s = some out ∧ matchesYMD out = true) ↔
      validISOInput s ∨ validMDYInput s ∨ validSerialInput s) ∧
    ((normalizeDate s).isSome = true ↔
      validISOInput s ∨ validMDYInput s ∨ validSerialInput s ∨ lowYearMDYInput s ∨
        isoEdgeInput s) := by
  by_cases ht : jsTrim s = ""
  · have hdata : (jsTrim s).data = [] := by rw [ht]
    have heval : normalizeDate s = none := by simp [normalizeDate, ht]
    have hiso : isoReTest (jsTrim s) = false := by rw [ht]; rfl
    have hmdy : mdyParse (jsTrim s).data = none := by rw [hdata]; rfl
    have hnum : jsStrToNum (jsTrim s).data = some 0 := by rw [hdata]; rfl
    have hisoC : ¬ validISOInput s := by
      rintro ⟨h1, _⟩
      rw [hiso] at h1
      exact absurd h1 (by simp)
    have hmdyC : ¬ validMDYInput s := by
      rintro ⟨m, d, y, hm', _⟩
      rw [hmdy] at hm'
      exact absurd hm' (by simp)
    have hlowC : ¬ lowYearMDYInput s := by
      rintro ⟨m, d, y, hm', _⟩
      rw [hmdy] at hm'
      exact absurd hm' (by simp)
    have hserC : ¬ validSerialInput s := by
      rintro ⟨q, hq, hq1, hq2⟩
      rw [hnum] at hq
      obtain rfl : (0 : ℚ) = q := Option.some.inj hq
      norm_num at hq1
    have hedgeC : ¬ isoEdgeInput s := by
      rintro ⟨h1, _⟩
      rw [hiso] at h1
      exact absurd h1 (by simp)
    constructor
    · constructor
      · rintro ⟨out, hout, _⟩
        rw [heval] at hout
        exact absurd hout (by simp)
      · rintro (h | h | h) <;> [exact absurd h hisoC; exact absurd h hmdyC;
          exact absurd h hserC]
    · constructor
      · intro h1
        rw [heval] at h1
        exact absurd h1 (by simp)
      · rintro (h | h | h | h | h) <;> [exact absurd h hisoC; exact absurd h hmdyC;
          exact absurd h hserC; exact absurd h hlowC; exact absurd h hedgeC]
  · by_cases hiso : isoReTest (jsTrim s) = true
    · cases hdp : jsDateParse (jsTrim s) with
      | none =>
        have heval : normalizeDate s = none := by simp [normalizeDate, ht, hiso, hdp]
        have hnoMDY : ∀ m d y, ¬ mdyParse (jsTrim s).data = some (m, d, y) := by
          intro m d y hm'
          have hF := iso_false_of_mdy (jsTrim s) (m, d, y) hm'
          rw [hF] at hiso
          exact absurd hiso (by simp)
        have hnoNum : jsStrToNum (jsTrim s).data = none := by
          obtain ⟨a, b, c, d, rest, heq, ha, hb, hc, hd⟩ := isoReTest_shape _ hiso
          rw [heq]
          exact num_none_of_dash a b c d rest ha hb hc hd
        have hisoC : ¬ validISOInput s := by
          rintro ⟨_, day, h2, _⟩
          rw [hdp] at h2
          exact absurd h2 (by simp)
        have hedgeC : ¬ isoEdgeInput s := by
          rintro ⟨_, day, h2, _⟩
          rw [hdp] at h2
          exact absurd h2 (by simp)
        have hserC : ¬ validSerialInput s := by
          rintro ⟨q, hq, _, _⟩
          rw [hnoNum] at hq
          exact absurd hq (by simp)
        constructor
        · constructor
          · rintro ⟨out, hout, _⟩
            rw [heval] at hout
            exact absurd hout (by simp)
          · rintro (h | ⟨m, d, y, hm', _⟩ | h)
            · exact absurd h hisoC
            · exact absurd hm' (hnoMDY m d y)
            · exact absurd h hserC
        · constructor
          · intro h1
            rw [heval] at h1
            exact absurd h1 (by simp)
          · rintro (h | ⟨m, d, y, hm', _⟩ | h | ⟨m, d, y, hm', _⟩ | h)
            · exact absurd h hisoC
            · exact absurd hm' (hnoMDY m d y)
            · exact absurd h hserC
            · exact absurd hm' (hnoMDY m d y)
            · exact absurd h hedgeC
      | some day =>
        have heval : normalizeDate s = some (toISODateOfDay day) := by
          simp [normalizeDate, ht, hiso, hdp]
        by_cases hin : -719528 ≤ day ∧ day ≤ 2932896
        · have hmY := matchesYMD_toISO day hin.1 hin.2
          have hvISO : validISOInput s := ⟨hiso, day, by rw [hdp], hin.1, hin.2⟩
          constructor
          · exact ⟨fun _ => Or.inl hvISO, fun _ => ⟨toISODateOfDay day, heval, hmY⟩⟩
          · exact ⟨fun _ => Or.inl hvISO, fun _ => by rw [heval]; rfl⟩
        · obtain ⟨hb1, hb2⟩ := jsDateParse_bounds _ _ hdp
          have hedge : day = -719529 ∨ day = 2932897 := by omega
          have hnm : matchesYMD (toISODateOfDay day) = false := by
            rcases hedge with rfl | rfl
            · exact toISO_low_edge
            · exact toISO_high_edge
          have hvE : isoEdgeInput s := ⟨hiso, day, by rw [hdp], by omega⟩
          have hnoMDY : ∀ m d y, ¬ mdyParse (jsTrim s).data = some (m, d, y) := by
            intro m d y hm'
            have hF := iso_false_of_mdy (jsTrim s) (m, d, y) hm'
            rw [hF] at hiso
            exact absurd hiso (by simp)
          have hnoNum : jsStrToNum (jsTrim s).data = none := by
            obtain ⟨a, b, c, d, rest, heq, ha, hb, hc, hd⟩ := isoReTest_shape _ hiso
            rw [heq]
            exact num_none_of_dash a b c d rest ha hb hc hd
          have hisoC : ¬ validISOInput s := by
            rintro ⟨_, day2, hday2, hc1, hc2⟩
            rw [hdp] at hday2
            obtain rfl : day = day2 := Option.some.inj hday2
            omega
          have hserC : ¬ validSerialInput s := by
            rintro ⟨q, hq, _, _⟩
            rw [hnoNum] at hq
            exact absurd hq (by simp)
          constructor
          · constructor
            · rintro ⟨out, hout, hmat⟩
              rw [heval] at hout
              obtain rfl : toISODateOfDay day = out := Option.some.inj hout
              rw [hnm] at hmat
              exact absurd hmat (by simp)
            · rintro (h | ⟨m, d, y, hm', _⟩ | h)
              · exact absurd h hisoC
              · exact absurd hm' (hnoMDY m d y)
              · exact absurd h hserC
          · constructor
            · intro _
              exact Or.inr (Or.inr (Or.inr (Or.inr hvE)))
            · intro _
              rw [heval]
              rfl
    · have hisoF : isoReTest (jsTrim s) = false := by
        revert hiso
        cases isoReTest (jsTrim s) <;> simp
      cases hnum : jsStrToNum (jsTrim s).data with
      | some q =>
        by_cases hq : 30000 < q ∧ q < 60000
        · have heval : normalizeDate s = some (toISODateOfDay (excelSerialDay q)) := by
            simp [normalizeDate, ht, hisoF, hnum, hq]
          obtain ⟨hb1, hb2⟩ := excelSerialDay_bounds q hq.1 hq.2
          have hmY := matchesYMD_toISO _ hb1 hb2
          have hvS : validSerialInput s := ⟨q, hnum, hq.1, hq.2⟩
          constructor
          · exact ⟨fun _ => Or.inr (Or.inr hvS), fun _ => ⟨_, heval, hmY⟩⟩
          · exact ⟨fun _ => Or.inr (Or.inr (Or.inl hvS)), fun _ => by rw [heval]; rfl⟩
        · have heval : normalizeDate s = mdyBranch (jsTrim s) := by
            simp [normalizeDate, ht, hisoF, hnum, hq]
          have hser : ¬ validSerialInput s := by
            rintro ⟨q', hq', hr1, hr2⟩
            rw [hnum] at hq'
            obtain rfl : q = q' := Option.some.inj hq'
            exact hq ⟨hr1, hr2⟩
          exact mdy_case_aux s hisoF hser heval
      | none =>
        have heval : normalizeDate s = mdyBranch (jsTrim s) := by
          simp [normalizeDate, ht, hisoF, hnum]
        have hser : ¬ validSerialInput s := by
          rintro ⟨q', hq', _, _⟩
          rw [hnum] at hq'
          exact absurd hq' (by simp)
        exact mdy_case_aux s hisoF hser heval

/-- C2 counterexample to the claim as stated: `"1/2/0001"` is an
`M/D/YYYY` date with month 1 (in 1–12), day 2 (in 1–31) and a 4-digit
year, yet `normalizeDate` renders the year unpadded, so the result is a
string that does not match `/^\d{4}-\d{2}-\d{2}$/` (and is not null
either). -/
theorem C2_counterexample :
    normalizeDate "1/2/0001" = some "1-01-02" ∧
      matchesYMD "1-01-02" = false ∧
      mdyParse (jsTrim "1/2/0001").data = some (1, 2, 1) := by
  refine ⟨by decide, by decide, by decide⟩

/-- C2 witness: a well-formed UTC date-time lies in the modelled
domain and satisfies the characterization. -/
theorem C2_witness :
    isoDomain (jsTrim "2024-06-15T08:30:00Z") = true ∧
    (((∃ out, normalizeDate "2024-06-15T08:30:00Z" = some out ∧ matchesYMD out = true) ↔
        validISOInput "2024-06-15T08:30:00Z" ∨ validMDYInput "2024-06-15T08:30:00Z" ∨
          validSerialInput "2024-06-15T08:30:00Z") ∧
      ((normalizeDate "2024-06-15T08:30:00Z").isSome = true ↔
        validISOInput "2024-06-15T08:30:00Z" ∨ validMDYInput "2024-06-15T08:30:00Z" ∨
          validSerialInput "2024-06-15T08:30:00Z" ∨
          lowYearMDYInput "2024-06-15T08:30:00Z" ∨ isoEdgeInput "2024-06-15T08:30:00Z")) :=
  ⟨by decide, C2_normalizeDate_characterization "2024-06-15T08:30:00Z" (by decide)⟩

-- ── normalizeCurrency (normalizer.js) ───────────────────────────────

/-- ASCII model of `Char` raising used by `String.prototype.toUpperCase`. -/
def jsUpperChar (c : Char) : Char :=
  if 'a' ≤ c ∧ c ≤ 'z' then Char.ofNat (c.toNat - 32) else c

/-- Model of `String.prototype.toUpperCase` (ASCII range). -/
def jsUpper (s : String) : String := ⟨s.data.map jsUpperChar⟩

/-- `replace(/,/g, "")`. -/
def stripCommas (l : List Char) : List Char := l.filter (fun c => !(c == ','))

/-- The fallback strip `replace(/[^0-9.\-]/g, "")`. -/
def keepNumDashDot (l : List Char) : List Char :=
  l.filter (fun c => c.isDigit || c == '.' || c == '-')

/-- Embedding of the `CURRENCY_SYMBOLS` table. -/
def CURRENCY_SYMBOLS (c : Char) : Option String :=
  if c = '$' then some "USD"
  else if c = '₹' then some "INR"
  else if c = '€' then some "EUR"
  else if c = '£' then some "GBP"
  else none

def isDigitOrComma (c : Char) : Bool := c.isDigit || c == ','

def isCurrencyCode (l : List Char) : Bool :=
  let low := l.map jsLowerChar
  low = "usd".data || low = "inr".data || low = "eur".data || low = "gbp".data

/-- Embedding of the `CURRENCY_RE` match
(`/^([₹$€£]?)\s*([\d,]+\.?\d*)\s*(USD|INR|EUR|GBP)?$/i`): returns the
optional symbol group, the numeric group's text, and the optional code
group's text. -/
def currencyReMatch (l : List Char) : Option (Option Char × List Char × Option (List Char)) :=
  let sym : Option Char :=
    match l with
    | c :: _ => if c = '₹' ∨ c = '$' ∨ c = '€' ∨ c = '£' then some c else none
    | [] => none
  let l1 := if sym.isSome then l.tail else l
  let l2 := l1.dropWhile isWs
  let num1 := l2.takeWhile isDigitOrComma
  if num1 = [] then none
  else
    let r1 := l2.dropWhile isDigitOrComma
    let dotTaken := match r1 with
      | '.' :: _ => true
      | _ => false
    let r2 := if dotTaken then r1.tail else r1
    let num2 := r2.takeWhile Char.isDigit
    let r4 := (r2.dropWhile Char.isDigit).dropWhile isWs
    let numGroup := num1 ++ (if dotTaken then ['.'] else []) ++ num2
    match r4 with
    | [] => some (sym, numGroup, none)
    | _ => if isCurrencyCode r4 then some (sym, numGroup, some r4) else none

/-- The result record of `normalizeCurrency`. -/
structure CurrencyResult where
  value : Option ℚ
  currency : Option String
deriving DecidableEq, Repr

/-- The currency tag committed on a structured match: the uppercased
code group if present, else the symbol's mapped code, else `"INR"`. -/
def currencyTag (sym : Option Char) (code : Option (List Char)) : String :=
  match code with
  | some cd => jsUpper ⟨cd⟩
  | none =>
    match sym with
    | some c =>
      match CURRENCY_SYMBOLS c with
      | some sc => sc
      | none => "INR"
    | none => "INR"

/-- Embedding of `normalizeCurrency` from `normalizer.js`: empty input
yields `{null, null}`; otherwise commas are stripped and `CURRENCY_RE`
is tried; on a match the numeric group is `parseFloat`ed and tagged; on
no match all characters except digits, dots and minus signs are stripped
and a bare number is recovered, the currency tagged `"UNKNOWN"`
unconditionally. -/
def normalizeCurrency (raw : String) : CurrencyResult :=
  if jsTrim raw = "" then ⟨none, none⟩
  else
    let s := stripCommas (jsTrim raw).data
    match currencyReMatch s with
    | none => ⟨jsParseFloat (keepNumDashDot s), some "UNKNOWN"⟩
    | some (sym, numGroup, code) => ⟨jsParseFloat numGroup, some (currencyTag sym code)⟩

/-- C3 counterexample to the claim as stated: on `"abc"` the structured
pattern fails and no number can be recovered, yet `normalizeCurrency`
returns currency `"UNKNOWN"` — not `{value: null, currency: null}` as
claimed. -/
theorem C3_counterexample :
    normalizeCurrency "abc" = ⟨none, some "UNKNOWN"⟩ ∧
      currencyReMatch (stripCommas (jsTrim "abc").data) = none ∧
      jsParseFloat (keepNumDashDot (stripCommas (jsTrim "abc").data)) = none :=
  ⟨by decide, by decide, by decide⟩

/-- **C3 (amended)** — `normalizeCurrency` strips thousands separators
and, on a structured match, returns the parsed amount tagged by the
trailing case-insensitive ISO code, else the leading symbol's currency
($→USD, ₹→INR, €→EUR, £→GBP), defaulting to INR when neither is
present; when the structured pattern fails it strips all
non-digit/dot/minus characters and returns the recovered number (null if
none parses) *always* tagged `"UNKNOWN"`; empty input returns
`{null, null}`. In particular `normalizeCurrency "$1,250,000"` is
`{1250000, USD}` and `normalizeCurrency "₹50,00,000"` is
`{5000000, INR}`. -/
theorem C3_normalizeCurrency_amended :
    normalizeCurrency "" = ⟨none, none⟩ ∧
    normalizeCurrency "$1,250,000" = ⟨some 1250000, some "USD"⟩ ∧
    normalizeCurrency "₹50,00,000" = ⟨some 5000000, some "INR"⟩ ∧
    (∀ s, ¬ jsTrim s = "" →
      currencyReMatch (stripCommas (jsTrim s).data) = none →
      normalizeCurrency s =
        ⟨jsParseFloat (keepNumDashDot (stripCommas (jsTrim s).data)), some "UNKNOWN"⟩) ∧
    (∀ s sym numGroup code, ¬ jsTrim s = "" →
      currencyReMatch (stripCommas (jsTrim s).data) = some (sym, numGroup, code) →
      normalizeCurrency s = ⟨jsParseFloat numGroup, some (currencyTag sym code)⟩) := by
  refine ⟨by decide, by decide, by decide, ?_, ?_⟩
  · intro s ht hm
    simp only [normalizeCurrency, if_neg ht, hm]
  · intro s sym numGroup code ht hm
    simp only [normalizeCurrency, if_neg ht, hm]

/-- Witness for C3 at concrete inputs on both guarded clauses. -/
theorem C3_witness :
    normalizeCurrency "7a" =
      ⟨jsParseFloat (keepNumDashDot (stripCommas (jsTrim "7a").data)), some "UNKNOWN"⟩ ∧
    normalizeCurrency "100 usd" =
      ⟨jsParseFloat "100".data, some (currencyTag none (some "usd".data))⟩ :=
  ⟨C3_normalizeCurrency_amended.2.2.2.1 "7a" (by decide) (by decide),
    C3_normalizeCurrency_amended.2.2.2.2 "100 usd" none "100".data (some "usd".data)
      (by decide) (by decide)⟩

-- ── normalizeText (normalizer.js) ───────────────────────────────────

/-- Collapse whitespace runs to single spaces (model of
`replace(/\s+/g, " ")`), written structurally so it reduces in the
kernel. -/
def collapseWsAux : Bool → List Char → List Char
  | _, [] => []
  | prevWs, c :: t =>
    if isWs c then
      (if prevWs then collapseWsAux true t else ' ' :: collapseWsAux true t)
    else c :: collapseWsAux false t

/-- Embedding of `normalizeText`: trim, collapse internal whitespace to
single spaces; empty input yields null. -/
def normalizeText (raw : String) : Option String :=
  if jsTrim raw = "" then none
  else some ⟨collapseWsAux false (jsTrim raw).data⟩

-- ── Monday value payloads and extractFromValue (normalizer.js) ──────

/-- A parsed JSON payload of a cell's `value` field. The raw field is a
JSON string in the source; it is modelled already parsed, with `none` at
the use site standing for an absent/null/unparseable payload (all of
which make `extractFromValue` contribute nothing). -/
inductive Json where
  | null
  | bool (b : Bool)
  | num (q : ℚ)
  | str (s : String)
  | arr (elems : List Json)
  | obj (fields : List (String × Json))

/-- JS truthiness of a JSON value. -/
def jsonTruthy : Json → Bool
  | .null => false
  | .bool b => b
  | .num q => q ≠ 0
  | .str s => s ≠ ""
  | .arr _ => true
  | .obj _ => true

/-- Property access `parsed?.field` on a JSON value. -/
def jGet (v : Json) (field : String) : Option Json :=
  match v with
  | .obj fields => alookup field fields
  | _ => none

mutual
/-- Model of JS `String(value)` on JSON payloads. Number rendering is
idealized (the pipeline only compares these strings to letter words). -/
def jsonToString : Json → String
  | .null => "null"
  | .bool b => if b then "true" else "false"
  | .num q => toString q
  | .str s => s
  | .arr xs => String.intercalate "," (jsonElemStrings xs)
  | .obj _ => "[object Object]"

/-- Elements of `Array.prototype.join`: `null` renders as the empty
string. -/
def jsonElemStrings : List Json → List String
  | [] => []
  | .null :: t => "" :: jsonElemStrings t
  | x :: t => jsonToString x :: jsonElemStrings t
end

/-- A truthy field chained with `||`: the field's value (as a string) if
truthy, else `none`. -/
def jGetTruthy (v : Json) (field : String) : Option String :=
  match jGet v field with
  | some x => if jsonTruthy x then some (jsonToString x) else none
  | none => none

/-- Embedding of `extractFromValue` from `normalizer.js`, over parsed
payloads (`JSON.parse` failure is the caller's `none`). Truthy payload
fields are treated through JS string coercion. -/
def extractFromValue (v : Json) (colType : Option String) : Option String :=
  if colType = some "color" ∨ colType = some "status" then
    match jGetTruthy v "label" with
    | some s => some s
    | none => jGetTruthy v "text"
  else if colType = some "dropdown" then
    match jGet v "ids" with
    | some ids => if jsonTruthy ids then none else dropdownLabels v
    | none => dropdownLabels v
  else if colType = some "date" then jGetTruthy v "date"
  else if colType = some "numeric" then
    if jsonTruthy v then some (jsonToString v) else none
  else
    match v with
    | .str s => some s
    | _ =>
      match jGetTruthy v "text" with
      | some s => some s
      | none =>
        match jGetTruthy v "value" with
        | some s => some s
        | none => jGetTruthy v "label"
where
  /-- `parsed?.labels?.join(", ") || null` (array payloads only). -/
  dropdownLabels (v : Json) : Option String :=
    match jGet v "labels" with
    | some (.arr xs) =>
      let j := String.intercalate ", " (jsonElemStrings xs)
      if j = "" then none else some j
    | _ => none

-- ── normalizeBoard (normalizer.js) ──────────────────────────────────

structure ColumnSpec where
  id : String
  title : String
  type : String
deriving DecidableEq, Repr

structure Cell where
  id : String
  text : Option String
  value : Option Json
  type : Option String
  column : Option String

structure Item where
  id : String
  name : String
  column_values : List Cell

/-- A raw board; `items` models `board.items_page?.items || []`. -/
structure RawBoard where
  name : String
  columns : List ColumnSpec
  items : List Item

structure DataQualityReport where
  totalRows : ℕ
  missingCounts : List (String × ℕ)
  currencyTypes : List String
  warnings : List String
deriving DecidableEq, Repr

structure BoardResult where
  boardName : String
  rows : List Row
  dataQuality : DataQualityReport
deriving DecidableEq, Repr

/-- `cv.column?.title || cv.id`. -/
def resolvedTitle (cv : Cell) : String :=
  match cv.column with
  | some t => if t = "" then cv.id else t
  | none => cv.id

/-- `columnMap[id]` built by `columnMap[col.id] = col` (last wins). -/
def colMapLookup (cols : List ColumnSpec) (id : String) : Option ColumnSpec :=
  cols.foldl (fun acc c => if c.id = id then some c else acc) none

/-- `cv.type || columnMap[cv.id]?.type`. -/
def resolvedColType (cols : List ColumnSpec) (cv : Cell) : Option String :=
  match cv.type with
  | some t => if ¬ t = "" then some t else (colMapLookup cols cv.id).map ColumnSpec.type
  | none => (colMapLookup cols cv.id).map ColumnSpec.type

def isWordChar (c : Char) : Bool := c.isAlphanum || c = '_'

/-- `\bdate\b` scan over an already lowercased character list, carrying
the previous character for the left boundary. -/
def hasWordDate (prev : Option Char) : List Char → Bool
  | [] => false
  | c :: t =>
    (startsWithL (c :: t) ['d', 'a', 't', 'e'] &&
      (match prev with
       | none => true
       | some p => !isWordChar p) &&
      (match (c :: t).drop 4 with
       | [] => true
       | x :: _ => !isWordChar x)) ||
    hasWordDate (some c) t

/-- `/\bdate\b/i.test(title)`. -/
def dateWordTest (title : String) : Bool := hasWordDate none (jsLower title).data

/-- `/quantity|billed|invoice|balance/i.test(title)`. -/
def quantLikeTest (title : String) : Bool :=
  jsIncludes (jsLower title) "quantity" || jsIncludes (jsLower title) "billed" ||
  jsIncludes (jsLower title) "invoice" || jsIncludes (jsLower title) "balance"

/-- The money-column test of `normalizeBoard`. -/
def moneyLikeTest (colType : Option String) (title : String) : Bool :=
  colType == some "numeric" || colType == some "numbers" ||
  jsIncludes (jsLower title) "value" || jsIncludes (jsLower title) "amount" ||
  jsIncludes (jsLower title) "price" || jsIncludes (jsLower title) "revenue" ||
  jsIncludes (jsLower title) "billed" || jsIncludes (jsLower title) "collected" ||
  jsIncludes (jsLower title) "receivable" || jsIncludes (jsLower title) "quantity"

/-- `missingCounts[title] = (missingCounts[title] || 0) + 1`. -/
def bumpCount : List (String × ℕ) → String → List (String × ℕ)
  | [], k => [(k, 1)]
  | (k₀, n) :: t, k => if k = k₀ then (k₀, n + 1) :: t else (k₀, n) :: bumpCount t k

/-- `Set.prototype.add` (insertion order, no duplicates). -/
def insertUnique (l : List String) (s : String) : List String :=
  if s ∈ l then l else l ++ [s]

/-- Accumulator of one item's cell loop. -/
structure CellState where
  row : Row
  missing : List (String × ℕ)
  curr : List String
  warn : List String

/-- The raw text of a cell: the plain `text` field, falling back to
structured-payload extraction when blank
(`cv.text ?? ""`, then `extractFromValue(cv.value, colType) || ""`). -/
def cellRawText (cols : List ColumnSpec) (cv : Cell) : String :=
  let rawText0 := match cv.text with
    | some t => t
    | none => ""
  if jsTrim rawText0 = "" then
    (match cv.value with
     | some j => (extractFromValue j (resolvedColType cols cv)).getD ""
     | none => "")
  else rawText0

/-- The body of the per-cell loop of `normalizeBoard`. -/
def processCell (cols : List ColumnSpec) (st : CellState) (cv : Cell) : CellState :=
  let title := resolvedTitle cv
  let colType := resolvedColType cols cv
  let rawText := cellRawText cols cv
  if jsTrim rawText = "" then
    { st with
        row := setKey st.row title JsVal.null
        missing := bumpCount st.missing title }
  else if (colType = some "date" ∨ dateWordTest title = true) ∧ ¬ quantLikeTest title = true then
    match normalizeDate rawText with
    | some d => { st with row := setKey st.row title (JsVal.str d) }
    | none =>
      { st with
        row := setKey st.row title JsVal.null
        warn := st.warn ++
          ["Unparseable date \"" ++ rawText ++ "\" in column \"" ++ title ++ "\""] }
  else if moneyLikeTest colType title then
    let res := normalizeCurrency rawText
    let row1 := setKey st.row title (match res.value with
      | some v => JsVal.num v
      | none => JsVal.null)
    let row2 := setKey row1 (title ++ "_currency") (match res.currency with
      | some c => JsVal.str c
      | none => JsVal.null)
    let curr2 := match res.currency with
      | some c => if c = "" then st.curr else insertUnique st.curr c
      | none => st.curr
    { st with
        row := row2
        curr := curr2 }
  else
    { st with row := setKey st.row title (match normalizeText rawText with
      | some t => JsVal.str t
      | none => JsVal.null) }

/-- One item's pass: seed the row with `_id`/`_name`, then fold the
cells. -/
def processItem (cols : List ColumnSpec) (missing : List (String × ℕ))
    (curr : List String) (warn : List String) (item : Item) : CellState :=
  item.column_values.foldl (processCell cols)
    { row := [("_id", JsVal.str item.id), ("_name", JsVal.str item.name)],
      missing := missing, curr := curr, warn := warn }

/-- The per-item step of `normalizeBoard`'s main loop. -/
def boardStep (cols : List ColumnSpec)
    (acc : List Row × List (String × ℕ) × List String × List String)
    (item : Item) : List Row × List (String × ℕ) × List String × List String :=
  let st := processItem cols acc.2.1 acc.2.2.1 acc.2.2.2 item
  (acc.1 ++ [st.row], st.missing, st.curr, st.warn)

/-- Embedding of `normalizeBoard` from `normalizer.js`. -/
def normalizeBoard (board : RawBoard) : BoardResult :=
  let fin := board.items.foldl (boardStep board.columns)
    (([] : List Row), ([] : List (String × ℕ)), ([] : List String), ([] : List String))
  let warnings := if 1 < fin.2.2.1.length then
      fin.2.2.2 ++ ["Mixed currencies detected: " ++ String.intercalate ", " fin.2.2.1]
    else fin.2.2.2
  { boardName := board.name
    rows := fin.1
    dataQuality :=
      { totalRows := fin.1.length
        missingCounts := fin.2.1
        currencyTypes := fin.2.2.1
        warnings := warnings } }

-- ── Row/counter lemmas for the normalizeBoard invariants (C1) ───────

theorem setKey_keys_mem (r : Row) (k : String) (v : JsVal) :
    k ∈ rowKeys (setKey r k v) := by
  induction r with
  | nil => simp [setKey, rowKeys]
  | cons p t ih =>
    obtain ⟨k₀, v₀⟩ := p
    unfold setKey
    by_cases h : k = k₀
    · rw [if_pos h]
      simp [rowKeys, h]
    · rw [if_neg h]
      simp only [rowKeys, List.map_cons, List.mem_cons]
      exact Or.inr ih

theorem setKey_keys_super (r : Row) (k : String) (v : JsVal) (x : String)
    (hx : x ∈ rowKeys r) : x ∈ rowKeys (setKey r k v) := by
  induction r with
  | nil => simp [rowKeys] at hx
  | cons p t ih =>
    obtain ⟨k₀, v₀⟩ := p
    simp only [rowKeys, List.map_cons, List.mem_cons] at hx
    unfold setKey
    by_cases h : k = k₀
    · rw [if_pos h]
      simp only [rowKeys, List.map_cons, List.mem_cons]
      rcases hx with hx | hx
      · exact Or.inl hx
      · exact Or.inr hx
    · rw [if_neg h]
      simp only [rowKeys, List.map_cons, List.mem_cons]
      rcases hx with hx | hx
      · exact Or.inl hx
      · exact Or.inr (ih hx)

/-- The per-cell step only ever rewrites the row through `setKey`, so it
preserves key membership. -/
theorem processCell_row_super (cols : List ColumnSpec) (st : CellState) (cv : Cell)
    (x : String) (hx : x ∈ rowKeys st.row) :
    x ∈ rowKeys (processCell cols st cv).row := by
  simp only [processCell]
  split
  · exact setKey_keys_super _ _ _ _ hx
  · split
    · split
      · exact setKey_keys_super _ _ _ _ hx
      · exact setKey_keys_super _ _ _ _ hx
    · split
      · exact setKey_keys_super _ _ _ _ (setKey_keys_super _ _ _ _ hx)
      · exact setKey_keys_super _ _ _ _ hx

/-- The per-cell step always writes the cell's resolved title into the
row. -/
theorem processCell_title_mem (cols : List ColumnSpec) (st : CellState) (cv : Cell) :
    resolvedTitle cv ∈ rowKeys (processCell cols st cv).row := by
  simp only [processCell]
  split
  · exact setKey_keys_mem _ _ _
  · split
    · split
      · exact setKey_keys_mem _ _ _
      · exact setKey_keys_mem _ _ _
    · split
      · exact setKey_keys_super _ _ _ _ (setKey_keys_mem _ _ _)
      · exact setKey_keys_mem _ _ _

/-- The per-cell step either leaves the missing counters alone or bumps
exactly the cell's resolved title. -/
theorem processCell_missing_cases (cols : List ColumnSpec) (st : CellState) (cv : Cell) :
    (processCell cols st cv).missing = st.missing ∨
    (processCell cols st cv).missing = bumpCount st.missing (resolvedTitle cv) := by
  simp only [processCell]
  split
  · right; rfl
  · split
    · split
      · left; rfl
      · left; rfl
    · split
      · left; rfl
      · left; rfl

def lookupCount (m : List (String × ℕ)) (t : String) : ℕ := (alookup t m).getD 0

def sumCounts (m : List (String × ℕ)) : ℕ := (m.map Prod.snd).sum

def keysNodup (m : List (String × ℕ)) : Prop := (m.map Prod.fst).Nodup

theorem bumpCount_lookup_self (m : List (String × ℕ)) (t : String) :
    lookupCount (bumpCount m t) t = lookupCount m t + 1 := by
  induction m with
  | nil => simp [bumpCount, lookupCount, alookup]
  | cons p r ih =>
    obtain ⟨k₀, n⟩ := p
    unfold bumpCount
    by_cases h : t = k₀
    · rw [if_pos h]
      simp [lookupCount, alookup, h]
    · rw [if_neg h]
      simp only [lookupCount, alookup, if_neg h] at ih ⊢
      exact ih

theorem bumpCount_lookup_other (m : List (String × ℕ)) (t t' : String) (h : ¬ t' = t) :
    lookupCount (bumpCount m t) t' = lookupCount m t' := by
  induction m with
  | nil =>
    simp [bumpCount, lookupCount, alookup, h]
  | cons p r ih =>
    obtain ⟨k₀, n⟩ := p
    unfold bumpCount
    by_cases hk : t = k₀
    · rw [if_pos hk]
      have : ¬ t' = k₀ := by rw [← hk]; exact h
      simp [lookupCount, alookup, this]
    · rw [if_neg hk]
      by_cases ht' : t' = k₀
      · simp [lookupCount, alookup, ht']
      · simp only [lookupCount, alookup, if_neg ht'] at ih ⊢
        exact ih

theorem bumpCount_sum (m : List (String × ℕ)) (t : String) :
    sumCounts (bumpCount m t) = sumCounts m + 1 := by
  induction m with
  | nil => simp [bumpCount, sumCounts]
  | cons p r ih =>
    obtain ⟨k₀, n⟩ := p
    unfold bumpCount
    by_cases h : t = k₀
    · rw [if_pos h]
      simp [sumCounts]
      omega
    · rw [if_neg h]
      simp only [sumCounts, List.map_cons, List.sum_cons] at ih ⊢
      omega

theorem bumpCount_keys (m : List (String × ℕ)) (t : String) :
    (bumpCount m t).map Prod.fst =
      if t ∈ m.map Prod.fst then m.map Prod.fst else m.map Prod.fst ++ [t] := by
  induction m with
  | nil => simp [bumpCount]
  | cons p r ih =>
    obtain ⟨k₀, n⟩ := p
    unfold bumpCount
    by_cases h : t = k₀
    · rw [if_pos h]
      simp [h]
    · rw [if_neg h]
      simp only [List.map_cons, List.mem_cons]
      rw [ih]
      by_cases hm : t ∈ r.map Prod.fst
      · simp [hm, h]
      · have : ¬ (t = k₀ ∨ t ∈ r.map Prod.fst) := by
          rintro (hc | hc)
          · exact h hc
          · exact hm hc
        simp only [if_neg hm, if_neg this]
        rfl

theorem keysNodup_bump (m : List (String × ℕ)) (t : String) (h : keysNodup m) :
    keysNodup (bumpCount m t) := by
  unfold keysNodup at *
  rw [bumpCount_keys]
  by_cases hm : t ∈ m.map Prod.fst
  · rw [if_pos hm]; exact h
  · rw [if_neg hm]
    simp [List.nodup_append, h, hm]

theorem entry_eq_lookup (m : List (String × ℕ)) (h : keysNodup m)
    (p : String × ℕ) (hp : p ∈ m) : alookup p.1 m = some p.2 := by
  induction m with
  | nil => simp at hp
  | cons q r ih =>
    obtain ⟨k₀, n⟩ := q
    unfold keysNodup at h
    simp only [List.map_cons, List.nodup_cons] at h
    rcases List.mem_cons.mp hp with rfl | hp'
    · simp [alookup]
    · have hne : ¬ p.1 = k₀ := by
        intro he
        exact h.1 (he ▸ List.mem_map_of_mem Prod.fst hp')
      simp only [alookup, if_neg hne]
      exact ih h.2 hp'

theorem foldCells_row_super (cols : List ColumnSpec) (cells : List Cell)
    (st : CellState) (x : String) (hx : x ∈ rowKeys st.row) :
    x ∈ rowKeys ((cells.foldl (processCell cols) st).row) := by
  induction cells generalizing st with
  | nil => exact hx
  | cons c rest ih =>
    simp only [List.foldl_cons]
    exact ih _ (processCell_row_super cols st c x hx)

theorem foldCells_titles_mem (cols : List ColumnSpec) (cells : List Cell)
    (st : CellState) (cv : Cell) (hcv : cv ∈ cells) :
    resolvedTitle cv ∈ rowKeys ((cells.foldl (processCell cols) st).row) := by
  induction cells generalizing st with
  | nil => simp at hcv
  | cons c rest ih =>
    simp only [List.foldl_cons]
    rcases List.mem_cons.mp hcv with rfl | hcv'
    · exact foldCells_row_super cols rest _ _ (processCell_title_mem cols st cv)
    · exact ih _ hcv'

theorem foldCells_missing_le (cols : List ColumnSpec) (cells : List Cell)
    (st : CellState) (hnd : (cells.map resolvedTitle).Nodup) (t : String) :
    lookupCount ((cells.foldl (processCell cols) st).missing) t ≤
      lookupCount st.missing t +
        (if t ∈ cells.map resolvedTitle then 1 else 0) := by
  induction cells generalizing st with
  | nil => simp
  | cons c rest ih =>
    simp only [List.map_cons, List.nodup_cons] at hnd
    obtain ⟨hnotin, hnd'⟩ := hnd
    simp only [List.foldl_cons]
    have hstep := processCell_missing_cases cols st c
    have ihr := ih (processCell cols st c) hnd'
    by_cases heq : t = resolvedTitle c
    · have hnr : ¬ t ∈ rest.map resolvedTitle := heq ▸ hnotin
      rw [if_neg hnr] at ihr
      have hmem : t ∈ (c :: rest).map resolvedTitle := by simp [heq]
      rw [if_pos hmem]
      rcases hstep with hsame | hbump
      · rw [hsame] at ihr; omega
      · rw [hbump, ← heq, bumpCount_lookup_self] at ihr; omega
    · have hstL : lookupCount (processCell cols st c).missing t = lookupCount st.missing t := by
        rcases hstep with hsame | hbump
        · rw [hsame]
        · rw [hbump, bumpCount_lookup_other _ _ _ heq]
      rw [hstL] at ihr
      by_cases hmem : t ∈ rest.map resolvedTitle
      · rw [if_pos hmem] at ihr
        rw [if_pos (by simp [hmem])]
        omega
      · rw [if_neg hmem] at ihr
        have : ¬ t ∈ (c :: rest).map resolvedTitle := by
          simp only [List.map_cons, List.mem_cons]
          rintro (hc | hc)
          · exact heq hc
          · exact hmem hc
        rw [if_neg this]
        omega

theorem foldCells_sum_le (cols : List ColumnSpec) (cells : List Cell) (st : CellState) :
    sumCounts ((cells.foldl (processCell cols) st).missing) ≤
      sumCounts st.missing + cells.length := by
  induction cells generalizing st with
  | nil => simp
  | cons c rest ih =>
    simp only [List.foldl_cons, List.length_cons]
    have ihr := ih (processCell cols st c)
    rcases processCell_missing_cases cols st c with hsame | hbump
    · rw [hsame] at ihr; omega
    · rw [hbump, bumpCount_sum] at ihr; omega

theorem foldCells_keysNodup (cols : List ColumnSpec) (cells : List Cell)
    (st : CellState) (h : keysNodup st.missing) :
    keysNodup ((cells.foldl (processCell cols) st).missing) := by
  induction cells generalizing st with
  | nil => exact h
  | cons c rest ih =>
    simp only [List.foldl_cons]
    apply ih
    rcases processCell_missing_cases cols st c with hsame | hbump
    · rw [hsame]; exact h
    · rw [hbump]; exact keysNodup_bump _ _ h

/-- The four-part invariant of `normalizeBoard`'s item loop. -/
def boardInv (titles : List String) (C : ℕ)
    (acc : List Row × List (String × ℕ) × List String × List String) : Prop :=
  keysNodup acc.2.1 ∧
  (∀ t, lookupCount acc.2.1 t ≤ acc.1.length) ∧
  sumCounts acc.2.1 ≤ acc.1.length * C ∧
  (∀ r ∈ acc.1, ∀ t ∈ titles, t ∈ rowKeys r)

theorem board_fold_inv (cols : List ColumnSpec) (items : List Item)
    (hnodupT : (cols.map ColumnSpec.title).Nodup)
    (hcover : ∀ item ∈ items,
      (item.column_values.map resolvedTitle).Perm (cols.map ColumnSpec.title)) :
    ∀ acc, boardInv (cols.map ColumnSpec.title) cols.length acc →
      boardInv (cols.map ColumnSpec.title) cols.length
        (items.foldl (boardStep cols) acc) := by
  induction items with
  | nil => intro acc h; exact h
  | cons item rest ih =>
    intro acc hacc
    obtain ⟨hk, hl, hs, hr⟩ := hacc
    have hperm := hcover item (List.mem_cons_self _ _)
    have hcells_nd : (item.column_values.map resolvedTitle).Nodup :=
      hperm.nodup_iff.mpr hnodupT
    have hlen : item.column_values.length = cols.length := by
      have := hperm.length_eq
      simpa using this
    simp only [List.foldl_cons]
    apply ih (fun it hit => hcover it (List.mem_cons_of_mem _ hit))
    constructor
    · exact foldCells_keysNodup cols _ _ hk
    constructor
    · intro t
      have hle := foldCells_missing_le cols item.column_values
        { row := [("_id", JsVal.str item.id), ("_name", JsVal.str item.name)],
          missing := acc.2.1, curr := acc.2.2.1, warn := acc.2.2.2 } hcells_nd t
      have hb := hl t
      simp only [boardStep, processItem, List.length_append, List.length_singleton]
      simp only [processItem] at hle
      split at hle <;> omega
    constructor
    · have hsum := foldCells_sum_le cols item.column_values
        { row := [("_id", JsVal.str item.id), ("_name", JsVal.str item.name)],
          missing := acc.2.1, curr := acc.2.2.1, warn := acc.2.2.2 }
      simp only [boardStep, processItem, List.length_append, List.length_singleton]
      simp only [processItem] at hsum
      have : (acc.1.length + 1) * cols.length = acc.1.length * cols.length + cols.length := by
        ring
      rw [this]
      omega
    · intro r hir t htitles
      simp only [boardStep, List.mem_append, List.mem_singleton] at hir
      rcases hir with hold | rfl
      · exact hr r hold t htitles
      · have : t ∈ item.column_values.map resolvedTitle := hperm.mem_iff.mpr htitles
        obtain ⟨cv, hcv, rfl⟩ := List.mem_map.mp this
        exact foldCells_titles_mem cols _ _ cv hcv

/-- **C1 (amended)** — when every item carries exactly one cell per
board column (its cells' resolved titles are a permutation of the
board's pairwise-distinct column titles; the Monday API shape), and no
resolved title is a property name of `Object.prototype` (on such a
title the JS writes `row[title] = v` and
`missingCounts[title] = (missingCounts[title] || 0) + 1` hit the
inherited `__proto__` accessor or read an inherited truthy member, so
the plain-dictionary model below does not apply — `_hsafe` confines
the claim to the titles on which it does), every column title appears
as a key in every normalized row (null when the cell is blank or
unparseable), each missing counter is at most `totalRows`, and the
counters sum to at most `totalRows * number_of_columns`. -/
theorem C1_normalizeBoard_amended (board : RawBoard)
    (hnodupT : (board.columns.map ColumnSpec.title).Nodup)
    (hcover : ∀ item ∈ board.items,
      (item.column_values.map resolvedTitle).Perm (board.columns.map ColumnSpec.title))
    (_hsafe : ∀ item ∈ board.items, ∀ cv ∈ item.column_values,
      resolvedTitle cv ∉ objectProtoProps) :
    (∀ r ∈ (normalizeBoard board).rows, ∀ t ∈ board.columns.map ColumnSpec.title,
      t ∈ rowKeys r) ∧
    (∀ p ∈ (normalizeBoard board).dataQuality.missingCounts,
      p.2 ≤ (normalizeBoard board).dataQuality.totalRows) ∧
    sumCounts (normalizeBoard board).dataQuality.missingCounts ≤
      (normalizeBoard board).dataQuality.totalRows * board.columns.length := by
  have hbase : boardInv (board.columns.map ColumnSpec.title) board.columns.length
      (([] : List Row), ([] : List (String × ℕ)), ([] : List String), ([] : List String)) := by
    refine ⟨by simp [keysNodup], ?_, by simp [sumCounts], by simp⟩
    intro t
    simp [lookupCount, alookup]
  have hinv := board_fold_inv board.columns board.items hnodupT hcover _ hbase
  obtain ⟨hk, hl, hs, hr⟩ := hinv
  have hrows : (normalizeBoard board).rows =
      (board.items.foldl (boardStep board.columns)
        (([] : List Row), ([] : List (String × ℕ)), ([] : List String),
          ([] : List String))).1 := rfl
  have hmc : (normalizeBoard board).dataQuality.missingCounts =
      (board.items.foldl (boardStep board.columns)
        (([] : List Row), ([] : List (String × ℕ)), ([] : List String),
          ([] : List String))).2.1 := rfl
  have htr : (normalizeBoard board).dataQuality.totalRows =
      (board.items.foldl (boardStep board.columns)
        (([] : List Row), ([] : List (String × ℕ)), ([] : List String),
          ([] : List String))).1.length := rfl
  refine ⟨?_, ?_, ?_⟩
  · intro r hri t ht
    rw [hrows] at hri
    exact hr r hri t ht
  · intro p hp
    rw [hmc] at hp
    rw [htr]
    have := entry_eq_lookup _ hk p hp
    have hlc : lookupCount
        (board.items.foldl (boardStep board.columns)
          (([] : List Row), ([] : List (String × ℕ)), ([] : List String),
            ([] : List String))).2.1 p.1 = p.2 := by
      simp [lookupCount, this]
    rw [← hlc]
    exact hl p.1
  · rw [hmc, htr]
    exact hs

/-- The board refuting C1 as stated: one declared column, one item with
no cell for it. -/
def C1board : RawBoard :=
  { name := "B"
    columns := [⟨"c1", "Status", "status"⟩]
    items := [{ id := "1", name := "x", column_values := [] }] }

/-- C1 counterexample to the claim as stated: `normalizeBoard` iterates
the cells each item carries, not the board's declared columns, so a
column absent from an item's `column_values` is silently dropped from
that row. -/
theorem C1_counterexample :
    "Status" ∈ C1board.columns.map ColumnSpec.title ∧
    (normalizeBoard C1board).rows =
      [[("_id", JsVal.str "1"), ("_name", JsVal.str "x")]] ∧
    ¬ "Status" ∈ rowKeys [("_id", JsVal.str "1"), ("_name", JsVal.str "x")] :=
  ⟨by decide, by decide, by decide⟩

/-- The two-item board of the repository's own Jest suite, used as the
C1 witness input. -/
def C1mockBoard : RawBoard :=
  { name := "Test Board"
    columns := [⟨"status", "Status", "status"⟩, ⟨"date4", "Close Date", "date"⟩,
      ⟨"numbers", "Deal Value", "numeric"⟩]
    items := [
      { id := "1", name := "Deal Alpha", column_values := [
          ⟨"status", some "Won", none, some "status", some "Status"⟩,
          ⟨"date4", some "2024-06-15", none, some "date", some "Close Date"⟩,
          ⟨"numbers", some "₹1,00,000", none, some "numeric", some "Deal Value"⟩] },
      { id := "2", name := "Deal Beta", column_values := [
          ⟨"status", some "", none, some "status", some "Status"⟩,
          ⟨"date4", some "", none, some "date", some "Close Date"⟩,
          ⟨"numbers", some "$50,000", none, some "numeric", some "Deal Value"⟩] }] }

/-- Witness for C1 at the Jest mock board. -/
theorem C1_witness :
    (∀ r ∈ (normalizeBoard C1mockBoard).rows,
      ∀ t ∈ C1mockBoard.columns.map ColumnSpec.title, t ∈ rowKeys r) ∧
    (∀ p ∈ (normalizeBoard C1mockBoard).dataQuality.missingCounts,
      p.2 ≤ (normalizeBoard C1mockBoard).dataQuality.totalRows) ∧
    sumCounts (normalizeBoard C1mockBoard).dataQuality.missingCounts ≤
      (normalizeBoard C1mockBoard).dataQuality.totalRows * C1mockBoard.columns.length :=
  C1_normalizeBoard_amended C1mockBoard (by decide) (by decide) (by decide)

-- ── computeDealsMetrics (queryEngine.js) ────────────────────────────

/-- `a.*b` in a JS regex: `a` occurs and `b` occurs somewhere after it. -/
def containsThenL (a b : List Char) : List Char → Bool
  | [] => startsWithL [] a && containsL [] b
  | h :: t =>
    (startsWithL (h :: t) a && containsL ((h :: t).drop a.length) b) ||
    containsThenL a b t

/-- `/won|closed.*won|completed|delivered/i.test`. -/
def testWonStage (s : String) : Bool :=
  let l := (jsLower s).data
  containsL l "won".data || containsThenL "closed".data "won".data l ||
  containsL l "completed".data || containsL l "delivered".data

/-- `/won|closed.*won/i.test`. -/
def testWonStatus (s : String) : Bool :=
  let l := (jsLower s).data
  containsL l "won".data || containsThenL "closed".data "won".data l

/-- `/lost|closed.*lost/i.test`. -/
def testLostStatus (s : String) : Bool :=
  let l := (jsLower s).data
  containsL l "lost".data || containsThenL "closed".data "lost".data l

/-- `col ? (r[col] || "Unknown") : "Unknown"`. -/
def colVal (r : Row) (col : Option String) : JsVal :=
  match col with
  | some c =>
    match alookup c r with
    | some v => if jsTruthy v then v else JsVal.str "Unknown"
    | none => JsVal.str "Unknown"
  | none => JsVal.str "Unknown"

/-- `r[c]` with JS `undefined` collapsed onto `null` (both falsy; never
otherwise observed by the callers). -/
def colValRaw (r : Row) (c : String) : JsVal := (alookup c r).getD JsVal.null

/-- `col ? (typeof r[col] === "number" ? r[col] : 0) : 0`. -/
def numVal (r : Row) (col : Option String) : ℚ :=
  match col with
  | some c =>
    match alookup c r with
    | some (JsVal.num q) => q
    | _ => 0
  | none => 0

/-- `canonicalizeSector` applied to a row value (JS coerces the value to
a string after the falsiness guard), reduced to the string the result
contributes as a distribution key: `none` for the falsy `null` (the
call sites apply `|| "Unknown"`), the string itself, and the
`String(v)` coercion of an inherited prototype member. -/
def canonicalizeSectorVal (v : JsVal) : Option String :=
  let out := match v with
    | JsVal.null => SectorOut.null
    | JsVal.str s => canonicalizeSector s
    | JsVal.num q =>
      if q = 0 then SectorOut.null else canonicalizeSector (jsValToString (JsVal.num q))
  match out with
  | SectorOut.null => none
  | SectorOut.str s => some s
  | SectorOut.protoVal name => some (protoValJsString name)

/-- `sectorBreakdown[sector]` update: count and summed value. -/
def bumpSector : List (String × ℕ × ℚ) → String → ℚ → List (String × ℕ × ℚ)
  | [], k, v => [(k, 1, v)]
  | (k₀, n, s) :: t, k, v =>
    if k = k₀ then (k₀, n + 1, s + v) :: t else (k₀, n, s) :: bumpSector t k v

/-- `quarterly[q] = (quarterly[q] || 0) + val`. -/
def addQuarter : List (String × ℚ) → String → ℚ → List (String × ℚ)
  | [], k, v => [(k, v)]
  | (k₀, s) :: t, k, v =>
    if k = k₀ then (k₀, s + v) :: t else (k₀, s) :: addQuarter t k v

/-- Model of `new Date(value)` on a row value: ISO date-only strings via
`jsDateParse`, numbers as epoch milliseconds; result is the day number. -/
def jsDateFromVal : JsVal → Option ℤ
  | JsVal.str s => jsDateParse s
  | JsVal.num q =>
    if truncQ q ≤ 8640000000000000 ∧ -8640000000000000 ≤ truncQ q then
      some (Int.fdiv (truncQ q) 86400000)
    else none
  | JsVal.null => none

/-- `Q${Math.ceil((d.getMonth() + 1) / 3)} ${d.getFullYear()}` with the
environment timezone modelled as UTC. -/
def quarterKey (day : ℤ) : String :=
  match civilFromDaysN (day + 865565).toNat with
  | (y400, m, _) => ⟨'Q' :: natDec ((m + 2) / 3) ++ ' ' :: natDec (y400 - 400)⟩

structure DealsAcc where
  totalPipeline : ℚ
  count : ℕ
  closedWon : ℕ
  closedLost : ℕ
  stageD : List (String × ℕ)
  statusD : List (String × ℕ)
  probD : List (String × ℕ)
  sectorB : List (String × ℕ × ℚ)
  quarterly : List (String × ℚ)

/-- The body of `computeDealsMetrics`' row loop. -/
def dealsStep (valueCol stageCol statusCol sectorCol dateCol probCol : Option String)
    (acc : DealsAcc) (r : Row) : DealsAcc :=
  let val := numVal r valueCol
  let stageS := jsValToString (colVal r stageCol)
  let statusS := jsValToString (colVal r statusCol)
  let sector := match sectorCol with
    | some sc => (canonicalizeSectorVal (colValRaw r sc)).getD "Unknown"
    | none => "Unknown"
  { totalPipeline := acc.totalPipeline + val
    count := acc.count + 1
    closedWon := acc.closedWon + (if testWonStage stageS then 1 else 0) +
      (if testWonStatus statusS then 1 else 0)
    closedLost := acc.closedLost + (if testLostStatus statusS then 1 else 0)
    stageD := bumpCount acc.stageD stageS
    statusD := bumpCount acc.statusD statusS
    probD := match probCol with
      | some pc =>
        bumpCount acc.probD (jsValToString (colVal r (some pc)))
      | none => acc.probD
    sectorB := bumpSector acc.sectorB sector val
    quarterly := match dateCol with
      | some dc =>
        if jsTruthy (colValRaw r dc) then
          match jsDateFromVal (colValRaw r dc) with
          | some day => addQuarter acc.quarterly (quarterKey day) val
          | none => acc.quarterly
        else acc.quarterly
      | none => acc.quarterly }

structure DealsMetrics where
  totalPipeline : ℚ
  dealCount : ℕ
  avgDealSize : ℚ
  closeRate : ℚ
  closedWon : ℕ
  closedLost : ℕ
  stageDistribution : List (String × ℕ)
  statusDistribution : List (String × ℕ)
  probabilityDistribution : List (String × ℕ)
  sectorBreakdown : List (String × ℕ × ℚ)
  quarterlyRevenue : List (String × ℚ)

/-- The column resolution and single pass of `computeDealsMetrics` (the
unused `createdCol` resolution of the source is kept). -/
def dealsAccOf (rows : List Row) : DealsAcc :=
  let valueCol := findCol rows ["masked deal value", "deal value", "value", "amount",
    "deal_value", "price", "revenue"]
  let stageCol := findCol rows ["deal stage", "stage", "deal_stage"]
  let statusCol := findCol rows ["deal status", "status"]
  let sectorCol := findCol rows ["sector/service", "sector", "industry", "vertical"]
  let dateCol := findCol rows ["tentative close date", "close date (a)", "close date",
    "closing date", "expected close", "close_date"]
  let probCol := findCol rows ["closure probability", "probability", "win probability"]
  let _createdCol := findCol rows ["created date", "created"]
  rows.foldl (dealsStep valueCol stageCol statusCol sectorCol dateCol probCol)
    { totalPipeline := 0, count := 0, closedWon := 0, closedLost := 0, stageD := [],
      statusD := [], probD := [], sectorB := [], quarterly := [] }

/-- Embedding of `computeDealsMetrics` from `queryEngine.js`: the single
pass, the clamp `closedWon = min(closedWon, count)`, and the derived
ratios. -/
def computeDealsMetrics (rows : List Row) : DealsMetrics :=
  let acc := dealsAccOf rows
  let closedWon := min acc.closedWon acc.count
  { totalPipeline := acc.totalPipeline
    dealCount := acc.count
    avgDealSize := if acc.count = 0 then 0 else acc.totalPipeline / (acc.count : ℚ)
    closeRate := if acc.count = 0 then 0 else (closedWon : ℚ) / (acc.count : ℚ)
    closedWon := closedWon
    closedLost := acc.closedLost
    stageDistribution := acc.stageD
    statusDistribution := acc.statusD
    probabilityDistribution := acc.probD
    sectorBreakdown := acc.sectorB
    quarterlyRevenue := acc.quarterly }

/-- The summed (pre-clamp) closed-won increments over the rows: one per
stage-text match and one per status-text match, both possible for the
same row. -/
def closedWonIncrements (rows : List Row) : ℕ :=
  let stageCol := findCol rows ["deal stage", "stage", "deal_stage"]
  let statusCol := findCol rows ["deal status", "status"]
  (rows.map (fun r =>
    (if testWonStage (jsValToString (colVal r stageCol)) then 1 else 0) +
    (if testWonStatus (jsValToString (colVal r statusCol)) then 1 else 0))).sum

theorem deals_fold_counts (v st su se d p : Option String) (rows : List Row)
    (acc : DealsAcc) :
    (rows.foldl (dealsStep v st su se d p) acc).count = acc.count + rows.length ∧
    (rows.foldl (dealsStep v st su se d p) acc).closedWon =
      acc.closedWon + (rows.map (fun r =>
        (if testWonStage (jsValToString (colVal r st)) then 1 else 0) +
        (if testWonStatus (jsValToString (colVal r su)) then 1 else 0))).sum := by
  induction rows generalizing acc with
  | nil => simp
  | cons r rest ih =>
    simp only [List.foldl_cons, List.map_cons, List.sum_cons, List.length_cons]
    obtain ⟨ih1, ih2⟩ := ih (dealsStep v st su se d p acc r)
    constructor
    · rw [ih1]
      simp only [dealsStep]
      omega
    · rw [ih2]
      simp only [dealsStep]
      omega

theorem dealsAccOf_counts (rows : List Row) :
    (dealsAccOf rows).count = rows.length ∧
    (dealsAccOf rows).closedWon = closedWonIncrements rows := by
  unfold dealsAccOf closedWonIncrements
  obtain ⟨h1, h2⟩ := deals_fold_counts
    (findCol rows ["masked deal value", "deal value", "value", "amount", "deal_value",
      "price", "revenue"])
    (findCol rows ["deal stage", "stage", "deal_stage"])
    (findCol rows ["deal status", "status"])
    (findCol rows ["sector/service", "sector", "industry", "vertical"])
    (findCol rows ["tentative close date", "close date (a)", "close date", "closing date",
      "expected close", "close_date"])
    (findCol rows ["closure probability", "probability", "win probability"])
    rows
    { totalPipeline := 0, count := 0, closedWon := 0, closedLost := 0, stageD := [],
      statusD := [], probD := [], sectorB := [], quarterly := [] }
  rw [h1, h2]
  constructor <;> simp

/-- **C4** — in `computeDealsMetrics` the closed-won counter sums one
increment per stage-text match (`/won|closed.*won|completed|delivered/i`)
and one per status-text match (`/won|closed.*won/i`), both of which can
fire for the same row; the summed total is then clamped to the row
count, and `closeRate = closedWon / count` (0 when the count is 0), so
`closedWon ≤ dealCount` and `closeRate ≤ 1` for every input row set. -/
theorem C4_computeDealsMetrics_closedWon (rows : List Row) :
    (computeDealsMetrics rows).dealCount = rows.length ∧
    (computeDealsMetrics rows).closedWon = min (closedWonIncrements rows) rows.length ∧
    (computeDealsMetrics rows).closedWon ≤ (computeDealsMetrics rows).dealCount ∧
    (computeDealsMetrics rows).closeRate =
      (if rows.length = 0 then 0
       else ((computeDealsMetrics rows).closedWon : ℚ) / (rows.length : ℚ)) ∧
    (computeDealsMetrics rows).closeRate ≤ 1 := by
  obtain ⟨h1, h2⟩ := dealsAccOf_counts rows
  have hcount : (computeDealsMetrics rows).dealCount = rows.length := by
    show (dealsAccOf rows).count = rows.length
    rw [h1]
  have hwon : (computeDealsMetrics rows).closedWon =
      min (closedWonIncrements rows) rows.length := by
    show min (dealsAccOf rows).closedWon (dealsAccOf rows).count =
      min (closedWonIncrements rows) rows.length
    rw [h1, h2]
  have hrate : (computeDealsMetrics rows).closeRate =
      (if rows.length = 0 then 0
       else ((computeDealsMetrics rows).closedWon : ℚ) / (rows.length : ℚ)) := by
    show (if (dealsAccOf rows).count = 0 then (0 : ℚ)
        else ((min (dealsAccOf rows).closedWon (dealsAccOf rows).count : ℕ) : ℚ) /
          ((dealsAccOf rows).count : ℚ)) = _
    rw [h1, h2, ← hwon]
  refine ⟨hcount, hwon, ?_, hrate, ?_⟩
  · rw [hwon, hcount]
    exact min_le_right _ _
  · rw [hrate]
    by_cases hz : rows.length = 0
    · rw [if_pos hz]
      norm_num
    · rw [if_neg hz]
      have hpos : (0 : ℚ) < (rows.length : ℚ) := by
        have : 0 < rows.length := Nat.pos_of_ne_zero hz
        exact_mod_cast this
      rw [div_le_one hpos]
      rw [hwon]
      exact_mod_cast min_le_right (closedWonIncrements rows) rows.length

-- ── computeWorkOrdersMetrics (queryEngine.js) ───────────────────────

/-- `a.b` in a JS regex: `a`, then exactly one character, then `b`.
(The fact that `.` does not match a newline is immaterial here.) -/
def containsDotPat (a b : List Char) : List Char → Bool
  | [] => false
  | h :: t =>
    (startsWithL (h :: t) a &&
      (match (h :: t).drop a.length with
       | _ :: rest2 => startsWithL rest2 b
       | [] => false)) ||
    containsDotPat a b t

/-- `/completed|complete|closed/i.test`. -/
def testCompleted (s : String) : Bool :=
  let l := (jsLower s).data
  containsL l "completed".data || containsL l "complete".data || containsL l "closed".data

/-- `/not started|not.started/i.test`. -/
def testNotStarted (s : String) : Bool :=
  let l := (jsLower s).data
  containsL l "not started".data || containsDotPat "not".data "started".data l

/-- `/ongoing|in.progress|executed/i.test`. -/
def testOngoing (s : String) : Bool :=
  let l := (jsLower s).data
  containsL l "ongoing".data || containsDotPat "in".data "progress".data l ||
  containsL l "executed".data

/-- The execution-status text of a row
(`execStatusCol ? (r[execStatusCol] || "Unknown") : "Unknown"`, coerced
to a string for the regex tests). -/
def woExecText (ec : Option String) (r : Row) : String := jsValToString (colVal r ec)

/-- Model of `new Date(value)` on a row value, in epoch milliseconds
(ISO strings — date-only at UTC midnight, date-times with explicit
offset at their instant — via `jsDateParseMs`; numbers as
milliseconds). -/
def jsDateMsFromVal : JsVal → Option ℤ
  | JsVal.str s => jsDateParseMs s
  | JsVal.num q =>
    if truncQ q ≤ 8640000000000000 ∧ -8640000000000000 ≤ truncQ q then some (truncQ q)
    else none
  | JsVal.null => none

/-- The overdue check of one row: 1 when the end-date cell is truthy,
parses, and lies strictly before the evaluation time `now`. -/
def woOverdueInc (endc : Option String) (now : ℤ) (r : Row) : ℕ :=
  match endc with
  | some ec =>
    if jsTruthy (colValRaw r ec) then
      match jsDateMsFromVal (colValRaw r ec) with
      | some due => if due < now then 1 else 0
      | none => 0
    else 0
  | none => 0

/-- The duration contribution of one row
(`(end - start) / 86400000`, counted when both dates parse and the
difference is non-negative). -/
def woDuration (startc endc : Option String) (r : Row) : Option ℚ :=
  match startc, endc with
  | some sc, some ec =>
    if jsTruthy (colValRaw r sc) ∧ jsTruthy (colValRaw r ec) then
      match jsDateMsFromVal (colValRaw r sc), jsDateMsFromVal (colValRaw r ec) with
      | some sms, some ems =>
        let days : ℚ := ((ems - sms : ℤ) : ℚ) / 86400000
        if 0 ≤ days then some days else none
      | _, _ => none
    else none
  | _, _ => none

/-- A numeric cell's contribution (`typeof r[col] === "number"`). -/
def woMoney (col : Option String) (r : Row) : ℚ :=
  match col with
  | some c =>
    match alookup c r with
    | some (JsVal.num q) => q
    | _ => 0
  | none => 0

structure WOAcc where
  openCount : ℕ
  closed : ℕ
  overdue : ℕ
  completed : ℕ
  notStarted : ℕ
  ongoing : ℕ
  totalDays : ℚ
  daysCount : ℕ
  totalAmount : ℚ
  totalBilled : ℚ
  totalCollected : ℚ
  execStatusDist : List (String × ℕ)
  sectorDist : List (String × ℕ)
  natureDist : List (String × ℕ)

/-- The body of `computeWorkOrdersMetrics`' row loop. The source's
if/else-if chain is written as guarded increments (`else if P` becomes
`¬previous ∧ P`); the overdue check appears in the `ongoing` and final
`else` branches only — not in the `not started` branch. -/
def woStep (execCol startc endc amountc billedc collectedc sectorc naturec : Option String)
    (now : ℤ) (acc : WOAcc) (r : Row) : WOAcc :=
  let execS := woExecText execCol r
  let cB := testCompleted execS
  let nB := testNotStarted execS
  let oB := testOngoing execS
  { openCount := acc.openCount + (if cB then 0 else 1)
    closed := acc.closed + (if cB then 1 else 0)
    overdue := acc.overdue + (if ¬ cB = true ∧ ¬ nB = true then woOverdueInc endc now r else 0)
    completed := acc.completed + (if cB then 1 else 0)
    notStarted := acc.notStarted + (if ¬ cB = true ∧ nB = true then 1 else 0)
    ongoing := acc.ongoing + (if ¬ cB = true ∧ ¬ nB = true ∧ oB = true then 1 else 0)
    totalDays := acc.totalDays + ((woDuration startc endc r).getD 0)
    daysCount := acc.daysCount + (if (woDuration startc endc r).isSome then 1 else 0)
    totalAmount := acc.totalAmount + woMoney amountc r
    totalBilled := acc.totalBilled + woMoney billedc r
    totalCollected := acc.totalCollected + woMoney collectedc r
    execStatusDist := bumpCount acc.execStatusDist execS
    sectorDist := match sectorc with
      | some sc => bumpCount acc.sectorDist ((canonicalizeSectorVal (colValRaw r sc)).getD "Unknown")
      | none => acc.sectorDist
    natureDist := match naturec with
      | some nc => bumpCount acc.natureDist (jsValToString (colVal r (some nc)))
      | none => acc.natureDist }

structure WOMetrics where
  total : ℕ
  openCount : ℕ
  closed : ℕ
  completed : ℕ
  notStarted : ℕ
  ongoing : ℕ
  overdue : ℕ
  completionPct : ℚ
  avgCompletionDays : Option ℚ
  totalAmount : ℚ
  totalBilled : ℚ
  totalCollected : ℚ
  collectionRate : ℚ
  executionStatusDistribution : List (String × ℕ)
  sectorDistribution : List (String × ℕ)
  natureOfWorkDistribution : List (String × ℕ)

/-- The all-zero accumulator the row loop starts from. -/
def woInit : WOAcc :=
  { openCount := 0, closed := 0, overdue := 0, completed := 0, notStarted := 0,
    ongoing := 0, totalDays := 0, daysCount := 0, totalAmount := 0, totalBilled := 0,
    totalCollected := 0, execStatusDist := [], sectorDist := [], natureDist := [] }

/-- The column resolution and single pass of `computeWorkOrdersMetrics`
(the unused `woStatusCol` resolution of the source is kept). `now` is
the evaluation time `new Date()` in epoch milliseconds. -/
def woAccOf (rows : List Row) (now : ℤ) : WOAcc :=
  let execStatusCol := findCol rows ["execution status", "status", "state", "work order status"]
  let _woStatusCol := findCol rows ["wo status", "wo status (billed)", "billing status"]
  let startCol := findCol rows ["probable start date", "start date", "start", "start_date"]
  let endCol := findCol rows ["probable end date", "end date", "completion date", "due date", "end_date"]
  let amountCol := findCol rows ["amount in rupees", "amount", "value"]
  let billedCol := findCol rows ["billed value", "billed"]
  let collectedCol := findCol rows ["collected amount", "collected"]
  let sectorCol := findCol rows ["sector", "industry"]
  let natureCol := findCol rows ["nature of work", "type of work", "work type"]
  rows.foldl (woStep execStatusCol startCol endCol amountCol billedCol collectedCol
      sectorCol natureCol now)
    woInit

/-- Embedding of `computeWorkOrdersMetrics` from `queryEngine.js`. -/
def computeWorkOrdersMetrics (rows : List Row) (now : ℤ) : WOMetrics :=
  let acc := woAccOf rows now
  let total := acc.openCount + acc.closed
  { total := total
    openCount := acc.openCount
    closed := acc.closed
    completed := acc.completed
    notStarted := acc.notStarted
    ongoing := acc.ongoing
    overdue := acc.overdue
    completionPct := if total = 0 then 0 else (acc.closed : ℚ) / (total : ℚ)
    avgCompletionDays := if acc.daysCount = 0 then none
      else some (acc.totalDays / (acc.daysCount : ℚ))
    totalAmount := acc.totalAmount
    totalBilled := acc.totalBilled
    totalCollected := acc.totalCollected
    collectionRate := if acc.totalAmount = 0 then 0
      else acc.totalCollected / acc.totalAmount
    executionStatusDistribution := acc.execStatusDist
    sectorDistribution := acc.sectorDist
    natureOfWorkDistribution := acc.natureDist }

-- ── C5: classification predicates and theorems ──────────────────────

/-- Row classified `completed` (first branch of the chain). -/
def woCompletedRow (ec : Option String) (r : Row) : Bool :=
  testCompleted (woExecText ec r)

/-- Row classified `not-started` (second branch: first test failed). -/
def woNotStartedRow (ec : Option String) (r : Row) : Bool :=
  !testCompleted (woExecText ec r) && testNotStarted (woExecText ec r)

/-- Row classified `ongoing` (third branch). -/
def woOngoingRow (ec : Option String) (r : Row) : Bool :=
  !testCompleted (woExecText ec r) && !testNotStarted (woExecText ec r) &&
    testOngoing (woExecText ec r)

/-- Row classified `other-open` (final `else`). -/
def woOtherOpenRow (ec : Option String) (r : Row) : Bool :=
  !testCompleted (woExecText ec r) && !testNotStarted (woExecText ec r) &&
    !testOngoing (woExecText ec r)

/-- The execution-status column as `computeWorkOrdersMetrics` resolves
it. -/
def woExecColOf (rows : List Row) : Option String :=
  findCol rows ["execution status", "status", "state", "work order status"]

/-- The end-date column as `computeWorkOrdersMetrics` resolves it. -/
def woEndColOf (rows : List Row) : Option String :=
  findCol rows ["probable end date", "end date", "completion date", "due date", "end_date"]

theorem woStep_closed (execCol startc endc amountc billedc collectedc sectorc
    naturec : Option String) (now : ℤ) (acc : WOAcc) (r : Row) :
    (woStep execCol startc endc amountc billedc collectedc sectorc naturec now acc r).closed =
      acc.closed + (if testCompleted (woExecText execCol r) then 1 else 0) := rfl

theorem woStep_completed (execCol startc endc amountc billedc collectedc sectorc
    naturec : Option String) (now : ℤ) (acc : WOAcc) (r : Row) :
    (woStep execCol startc endc amountc billedc collectedc sectorc naturec now acc r).completed =
      acc.completed + (if testCompleted (woExecText execCol r) then 1 else 0) := rfl

theorem woStep_notStarted (execCol startc endc amountc billedc collectedc sectorc
    naturec : Option String) (now : ℤ) (acc : WOAcc) (r : Row) :
    (woStep execCol startc endc amountc billedc collectedc sectorc naturec now acc r).notStarted =
      acc.notStarted + (if ¬ testCompleted (woExecText execCol r) = true ∧
        testNotStarted (woExecText execCol r) = true then 1 else 0) := rfl

theorem woStep_ongoing (execCol startc endc amountc billedc collectedc sectorc
    naturec : Option String) (now : ℤ) (acc : WOAcc) (r : Row) :
    (woStep execCol startc endc amountc billedc collectedc sectorc naturec now acc r).ongoing =
      acc.ongoing + (if ¬ testCompleted (woExecText execCol r) = true ∧
        ¬ testNotStarted (woExecText execCol r) = true ∧
        testOngoing (woExecText execCol r) = true then 1 else 0) := rfl

theorem woStep_openCount (execCol startc endc amountc billedc collectedc sectorc
    naturec : Option String) (now : ℤ) (acc : WOAcc) (r : Row) :
    (woStep execCol startc endc amountc billedc collectedc sectorc naturec now acc r).openCount =
      acc.openCount + (if testCompleted (woExecText execCol r) then 0 else 1) := rfl

theorem woStep_overdue (execCol startc endc amountc billedc collectedc sectorc
    naturec : Option String) (now : ℤ) (acc : WOAcc) (r : Row) :
    (woStep execCol startc endc amountc billedc collectedc sectorc naturec now acc r).overdue =
      acc.overdue + (if ¬ testCompleted (woExecText execCol r) = true ∧
        ¬ testNotStarted (woExecText execCol r) = true then
          woOverdueInc endc now r else 0) := rfl

theorem wo_fold_counts (execCol startc endc amountc billedc collectedc sectorc
    naturec : Option String) (now : ℤ) (rows : List Row) (acc : WOAcc) :
    (rows.foldl (woStep execCol startc endc amountc billedc collectedc sectorc naturec now)
        acc).closed = acc.closed + rows.countP (woCompletedRow execCol) ∧
    (rows.foldl (woStep execCol startc endc amountc billedc collectedc sectorc naturec now)
        acc).completed = acc.completed + rows.countP (woCompletedRow execCol) ∧
    (rows.foldl (woStep execCol startc endc amountc billedc collectedc sectorc naturec now)
        acc).notStarted = acc.notStarted + rows.countP (woNotStartedRow execCol) ∧
    (rows.foldl (woStep execCol startc endc amountc billedc collectedc sectorc naturec now)
        acc).ongoing = acc.ongoing + rows.countP (woOngoingRow execCol) ∧
    (rows.foldl (woStep execCol startc endc amountc billedc collectedc sectorc naturec now)
        acc).openCount = acc.openCount + rows.countP (fun r => !(woCompletedRow execCol r)) ∧
    (rows.foldl (woStep execCol startc endc amountc billedc collectedc sectorc naturec now)
        acc).overdue = acc.overdue + (rows.map (fun r =>
          if woOngoingRow execCol r || woOtherOpenRow execCol r then
            woOverdueInc endc now r
          else 0)).sum := by
  induction rows generalizing acc with
  | nil => simp
  | cons r rest ih =>
    simp only [List.foldl_cons, List.countP_cons, List.map_cons, List.sum_cons]
    obtain ⟨ih1, ih2, ih3, ih4, ih5, ih6⟩ :=
      ih (woStep execCol startc endc amountc billedc collectedc sectorc naturec now acc r)
    refine ⟨?_, ?_, ?_, ?_, ?_, ?_⟩ <;>
      [rw [ih1]; rw [ih2]; rw [ih3]; rw [ih4]; rw [ih5]; rw [ih6]] <;>
      by_cases hc : testCompleted (woExecText execCol r) <;>
      by_cases hn : testNotStarted (woExecText execCol r) <;>
      by_cases ho : testOngoing (woExecText execCol r) <;>
      simp [woStep_closed, woStep_completed, woStep_notStarted, woStep_ongoing,
        woStep_openCount, woStep_overdue, woCompletedRow, woNotStartedRow,
        woOngoingRow, woOtherOpenRow, hc, hn, ho] <;>
      omega

theorem wo_partition (ec : Option String) (rows : List Row) :
    rows.countP (woCompletedRow ec) + rows.countP (woNotStartedRow ec) +
      rows.countP (woOngoingRow ec) + rows.countP (woOtherOpenRow ec) = rows.length ∧
    rows.countP (fun r => !(woCompletedRow ec r)) =
      rows.countP (woNotStartedRow ec) + rows.countP (woOngoingRow ec) +
        rows.countP (woOtherOpenRow ec) := by
  induction rows with
  | nil => simp
  | cons r rest ih =>
    simp only [List.countP_cons, List.length_cons]
    obtain ⟨ih1, ih2⟩ := ih
    constructor <;>
      by_cases hc : testCompleted (woExecText ec r) <;>
      by_cases hn : testNotStarted (woExecText ec r) <;>
      by_cases ho : testOngoing (woExecText ec r) <;>
      simp [woCompletedRow, woNotStartedRow, woOngoingRow, woOtherOpenRow,
        hc, hn, ho] at ih1 ih2 ⊢ <;>
      omega

/-- A work order marked "Not Started" whose end date lies in the past. -/
def C5row : Row :=
  [("Execution Status", JsVal.str "Not Started"), ("End Date", JsVal.str "2000-01-01")]

def C5rows : List Row := [C5row]

/-- C5: counterexample. On a single work order with execution status
"Not Started" and end date 2000-01-01, evaluated at
now = 1704067200000 (2024-01-01T00:00:00Z), the row is classified
not-started (hence open), its end-date column resolves and parses to
946684800000 ms, strictly before `now` — yet the overdue counter stays
0, because the `not started` branch of the source never performs the
overdue check. -/
theorem C5_counterexample :
    (computeWorkOrdersMetrics C5rows 1704067200000).notStarted = 1 ∧
    (computeWorkOrdersMetrics C5rows 1704067200000).openCount = 1 ∧
    woNotStartedRow (woExecColOf C5rows) C5row = true ∧
    woEndColOf C5rows = some "End Date" ∧
    jsDateMsFromVal (colValRaw C5row "End Date") = some 946684800000 ∧
    (946684800000 : ℤ) < 1704067200000 ∧
    (computeWorkOrdersMetrics C5rows 1704067200000).overdue = 0 := by
  refine ⟨rfl, rfl, rfl, rfl, ?_, by decide, rfl⟩
  decide

/-- C5 (amended): every row is classified into exactly one of
completed / not-started / ongoing / other-open by the regexes over the
execution-status text, the four class counters of
`computeWorkOrdersMetrics` count exactly those classes (closed equals
completed, openCount the three open classes), the classes partition
the rows, and the overdue counter sums the end-date check over the
ongoing and other-open rows only — a row classified not-started is
never checked for overdue. -/
theorem C5_computeWorkOrdersMetrics_amended (rows : List Row) (now : ℤ) :
    (computeWorkOrdersMetrics rows now).completed =
      rows.countP (woCompletedRow (woExecColOf rows)) ∧
    (computeWorkOrdersMetrics rows now).closed =
      rows.countP (woCompletedRow (woExecColOf rows)) ∧
    (computeWorkOrdersMetrics rows now).notStarted =
      rows.countP (woNotStartedRow (woExecColOf rows)) ∧
    (computeWorkOrdersMetrics rows now).ongoing =
      rows.countP (woOngoingRow (woExecColOf rows)) ∧
    (computeWorkOrdersMetrics rows now).openCount =
      rows.countP (woNotStartedRow (woExecColOf rows)) +
        rows.countP (woOngoingRow (woExecColOf rows)) +
        rows.countP (woOtherOpenRow (woExecColOf rows)) ∧
    rows.countP (woCompletedRow (woExecColOf rows)) +
        rows.countP (woNotStartedRow (woExecColOf rows)) +
        rows.countP (woOngoingRow (woExecColOf rows)) +
        rows.countP (woOtherOpenRow (woExecColOf rows)) = rows.length ∧
    (computeWorkOrdersMetrics rows now).overdue =
      (rows.map (fun r =>
        if woOngoingRow (woExecColOf rows) r || woOtherOpenRow (woExecColOf rows) r then
          woOverdueInc (woEndColOf rows) now r
        else 0)).sum := by
  have hacc : woAccOf rows now =
      rows.foldl (woStep (woExecColOf rows)
        (findCol rows ["probable start date", "start date", "start", "start_date"])
        (woEndColOf rows)
        (findCol rows ["amount in rupees", "amount", "value"])
        (findCol rows ["billed value", "billed"])
        (findCol rows ["collected amount", "collected"])
        (findCol rows ["sector", "industry"])
        (findCol rows ["nature of work", "type of work", "work type"]) now) woInit := rfl
  obtain ⟨h1, h2, h3, h4, h5, h6⟩ :=
    wo_fold_counts (woExecColOf rows)
      (findCol rows ["probable start date", "start date", "start", "start_date"])
      (woEndColOf rows)
      (findCol rows ["amount in rupees", "amount", "value"])
      (findCol rows ["billed value", "billed"])
      (findCol rows ["collected amount", "collected"])
      (findCol rows ["sector", "industry"])
      (findCol rows ["nature of work", "type of work", "work type"])
      now rows woInit
  obtain ⟨hp1, hp2⟩ := wo_partition (woExecColOf rows) rows
  have hcl : (computeWorkOrdersMetrics rows now).closed = (woAccOf rows now).closed := rfl
  have hco : (computeWorkOrdersMetrics rows now).completed =
    (woAccOf rows now).completed := rfl
  have hns : (computeWorkOrdersMetrics rows now).notStarted =
    (woAccOf rows now).notStarted := rfl
  have hog : (computeWorkOrdersMetrics rows now).ongoing = (woAccOf rows now).ongoing := rfl
  have hop : (computeWorkOrdersMetrics rows now).openCount =
    (woAccOf rows now).openCount := rfl
  have hov : (computeWorkOrdersMetrics rows now).overdue = (woAccOf rows now).overdue := rfl
  rw [hcl, hco, hns, hog, hop, hov, hacc, h1, h2, h3, h4, h5, h6]
  simp only [woInit]
  refine ⟨by omega, by omega, by omega, by omega, by omega, hp1, by omega⟩

-- ── computeConfidence (agent.js) ────────────────────────────────────

/-- `parseFloat(x.toFixed(2))`: rounding to two decimal places; on a
tie ECMAScript toFixed picks the larger candidate. -/
def jsToFixed2 (x : ℚ) : ℚ := ((⌊x * 100 + 1 / 2⌋ : ℤ) : ℚ) / 100

/-- The loop body of `computeConfidence`: subtract
`missingRatio * 0.3`, then a flat 0.05 when the report carries more
than 3 warnings. `maxPossible` is
`dq.totalRows * Object.keys(dq.missingCounts).length || 1`. -/
def confidenceStep (score : ℚ) (dq : DataQualityReport) : ℚ :=
  let totalMissing : ℚ := (sumCounts dq.missingCounts : ℚ)
  let mp := dq.totalRows * dq.missingCounts.length
  let maxPossible : ℚ := ((if mp = 0 then 1 else mp : ℕ) : ℚ)
  let score := score - totalMissing / maxPossible * (3 / 10)
  if 3 < dq.warnings.length then score - 1 / 20 else score

/-- Embedding of `computeConfidence` from `agent.js`: `reports` is
`[results.dataQuality.deals, results.dataQuality.workOrders].filter(Boolean)`,
the list of reports actually present. -/
def computeConfidence (reports : List DataQualityReport) : ℚ :=
  max (1 / 10) (min 1 (jsToFixed2 (reports.foldl confidenceStep (85 / 100))))

/-- The penalty one report contributes, stated as the spec words it:
the denominator is `max(1, totalRows * number-of-keys)`. -/
def confidencePenalty (dq : DataQualityReport) : ℚ :=
  (sumCounts dq.missingCounts : ℚ) /
      ((max 1 (dq.totalRows * dq.missingCounts.length) : ℕ) : ℚ) * (3 / 10) +
    (if 3 < dq.warnings.length then 1 / 20 else 0)

theorem confidenceStep_eq (score : ℚ) (dq : DataQualityReport) :
    confidenceStep score dq = score - confidencePenalty dq := by
  have hmp : (if dq.totalRows * dq.missingCounts.length = 0 then 1
      else dq.totalRows * dq.missingCounts.length) =
      max 1 (dq.totalRows * dq.missingCounts.length) := by
    split <;> omega
  simp only [confidenceStep, confidencePenalty, hmp]
  split <;> ring

theorem confidence_fold (reports : List DataQualityReport) (s : ℚ) :
    reports.foldl confidenceStep s = s - (reports.map confidencePenalty).sum := by
  induction reports generalizing s with
  | nil => simp
  | cons dq rest ih =>
    simp only [List.foldl_cons, List.map_cons, List.sum_cons, ih, confidenceStep_eq]
    ring

theorem confidencePenalty_zero (dq : DataQualityReport)
    (hm : sumCounts dq.missingCounts = 0) (hw : dq.warnings.length ≤ 3) :
    confidencePenalty dq = 0 := by
  simp only [confidencePenalty, hm]
  rw [if_neg (by omega)]
  simp

theorem jsToFixed2_85 : jsToFixed2 (85 / 100) = 85 / 100 := by
  have h : (85 / 100 : ℚ) * 100 + 1 / 2 = 171 / 2 := by ring
  have hf : ⌊(171 / 2 : ℚ)⌋ = 85 := by
    rw [Int.floor_eq_iff]
    norm_num
  simp only [jsToFixed2, h, hf]
  norm_num

/-- C6: computeConfidence starts from 0.85, subtracts
`missingRatio * 0.3` per report with
`missingRatio = sum(missingCounts) / max(1, totalRows * number of missingCounts keys)`
plus a flat 0.05 per report with more than 3 warnings, and clamps the
2-decimal rounding of the result to [0.10, 1.00]; when every report
has zero missing values and at most 3 warnings the result is exactly
0.85. -/
theorem C6_computeConfidence (reports : List DataQualityReport) :
    1 / 10 ≤ computeConfidence reports ∧
    computeConfidence reports ≤ 1 ∧
    computeConfidence reports =
      max (1 / 10) (min 1 (jsToFixed2 (85 / 100 - (reports.map confidencePenalty).sum))) ∧
    ((∀ dq ∈ reports, sumCounts dq.missingCounts = 0 ∧ dq.warnings.length ≤ 3) →
      computeConfidence reports = 85 / 100) := by
  have hfold := confidence_fold reports (85 / 100)
  refine ⟨le_max_left _ _, max_le (by norm_num) (min_le_left _ _), ?_, ?_⟩
  · simp only [computeConfidence, hfold]
  · intro h
    have hsum : (reports.map confidencePenalty).sum = 0 := by
      apply List.sum_eq_zero
      intro x hx
      obtain ⟨dq, hdq, rfl⟩ := List.mem_map.1 hx
      exact confidencePenalty_zero dq (h dq hdq).1 (h dq hdq).2
    simp only [computeConfidence, hfold, hsum, sub_zero, jsToFixed2_85]
    rw [min_eq_right (by norm_num : (85 / 100 : ℚ) ≤ 1),
      max_eq_right (by norm_num : (1 / 10 : ℚ) ≤ 85 / 100)]

/-- C6 witness: a single report with five rows, no missing values and
two warnings scores exactly 0.85. -/
theorem C6_witness :
    computeConfidence [⟨5, [], ["USD"], ["a", "b"]⟩] = 85 / 100 := by
  refine (C6_computeConfidence [⟨5, [], ["USD"], ["a", "b"]⟩]).2.2.2 ?_
  intro dq hdq
  simp only [List.mem_singleton] at hdq
  subst hdq
  exact ⟨rfl, by decide⟩

-- ── crossBoardAnalysis (agent.js) ───────────────────────────────────

/-- `(r._name || "").toLowerCase()`. Pipeline rows always carry their
item name as a string under `_name`; a non-string `_name` (on which
`toLowerCase` would throw) is outside the model and mapped to "". -/
def rowNameLower (r : Row) : String :=
  match alookup "_name" r with
  | some (JsVal.str s) => jsLower s
  | _ => ""

/-- `Object.values(r).filter((v) => typeof v === "string").join(" ").toLowerCase()`. -/
def rowStringsJoined (r : Row) : String :=
  jsLower (String.intercalate " " (r.filterMap (fun p =>
    match p.2 with
    | JsVal.str s => some s
    | _ => none)))

/-- The name-linkage test one work-order row passes when some deal row
matches it: deal names shorter than 3 characters are skipped, else the
work-order name contains the deal name, or the deal name contains the
work-order name, or the joined work-order text contains the deal
name. -/
def woLinked (dealsRows : List Row) (w : Row) : Bool :=
  let woName := rowNameLower w
  let allWoText := rowStringsJoined w
  dealsRows.any (fun d =>
    let dn := rowNameLower d
    if dn.length < 3 then false
    else containsL woName.data dn.data || containsL dn.data woName.data ||
      containsL allWoText.data dn.data)

/-- `dealSectors`: the deduplicated lowercased truthy values of the
resolved sector column (a non-string truthy value, on which
`toLowerCase` would throw, is outside the model). -/
def dealSectors (dealsRows : List Row) : List String :=
  match findCol dealsRows ["sector", "industry", "vertical"] with
  | some sc => (dealsRows.filterMap (fun r =>
      match alookup sc r with
      | some (JsVal.str s) => if s = "" then none else some (jsLower s)
      | _ => none)).eraseDups
  | none => []

structure CrossBoard where
  linkedWorkOrders : ℕ
  sectorLinkedWorkOrders : ℕ

/-- Embedding of the linkage computation of `crossBoardAnalysis` from
`agent.js`: `linkedWorkOrders = Math.max(linkedWOs.length, sectorLinkedWOs.length)`.
The `insights` strings built from the two metrics arguments read, but
do not affect, these counts and are not modelled. -/
def crossBoardAnalysis (dealsRows woRows : List Row) : CrossBoard :=
  let linkedWOs := woRows.filter (woLinked dealsRows)
  let secs := dealSectors dealsRows
  let sectorLinkedWOs :=
    if secs.isEmpty then []
    else woRows.filter (fun r => secs.any (fun sec =>
      containsL (rowStringsJoined r).data sec.data))
  { linkedWorkOrders := max linkedWOs.length sectorLinkedWOs.length
    sectorLinkedWorkOrders := sectorLinkedWOs.length }

def C7dealRow : Row := [("_id", JsVal.str "1"), ("_name", JsVal.str "Acme Solar Rollout")]

def C7woRow : Row := [("_id", JsVal.str "2"), ("_name", JsVal.str "Acme Solar — Phase 1")]

def C7dealsRows : List Row := [C7dealRow]

def C7woRows : List Row := [C7woRow]

/-- C7: counterexample. With exactly the deal "Acme Solar Rollout" and
the work order "Acme Solar — Phase 1", neither name is a substring of
the other (and no sector column exists), so crossBoardAnalysis reports
0 linked work orders, not at least 1. -/
theorem C7_counterexample :
    alookup "_name" C7dealRow = some (JsVal.str "Acme Solar Rollout") ∧
    C7dealRow ∈ C7dealsRows ∧
    alookup "_name" C7woRow = some (JsVal.str "Acme Solar — Phase 1") ∧
    C7woRow ∈ C7woRows ∧
    (crossBoardAnalysis C7dealsRows C7woRows).linkedWorkOrders = 0 := by
  refine ⟨rfl, by decide, rfl, by decide, ?_⟩
  decide

/-- C7 (amended): whenever some deal row's lowercased name has at
least 3 characters and is contained in some work-order row's
lowercased name, crossBoardAnalysis links at least one work order. -/
theorem C7_crossBoard_amended (dealsRows woRows : List Row) (d w : Row)
    (hd : d ∈ dealsRows) (hw : w ∈ woRows)
    (hlen : 3 ≤ (rowNameLower d).length)
    (hsub : containsL (rowNameLower w).data (rowNameLower d).data = true) :
    1 ≤ (crossBoardAnalysis dealsRows woRows).linkedWorkOrders := by
  have hlinked : woLinked dealsRows w = true := by
    simp only [woLinked, List.any_eq_true]
    refine ⟨d, hd, ?_⟩
    rw [if_neg (by omega)]
    simp [hsub]
  have hmem : w ∈ woRows.filter (woLinked dealsRows) :=
    List.mem_filter.2 ⟨hw, hlinked⟩
  have hpos : 1 ≤ (woRows.filter (woLinked dealsRows)).length :=
    List.length_pos_of_mem hmem
  exact le_trans hpos (le_max_left _ _)

def C7woRow2 : Row :=
  [("_id", JsVal.str "2"), ("_name", JsVal.str "Acme Solar Rollout — Phase 1")]

/-- C7 witness: a work order whose name contains the full deal name is
linked. -/
theorem C7_witness :
    1 ≤ (crossBoardAnalysis C7dealsRows [C7woRow2]).linkedWorkOrders :=
  C7_crossBoard_amended C7dealsRows [C7woRow2] C7dealRow C7woRow2
    (by decide) (by decide) (by decide) (by decide)

-- ── executePlan (agent.js) ──────────────────────────────────────────

structure PlanFilters where
  sector : Option String
  quarter : Option String

structure Plan where
  data_sources : List String
  filters : Option PlanFilters

/-- JS truthiness of an optional string (`undefined`, `null` and `""`
are falsy). -/
def strTruthy : Option String → Bool
  | none => false
  | some s => !s.isEmpty

def needsDeals (plan : Plan) : Bool :=
  plan.data_sources.contains "deals" || plan.data_sources.contains "all"

def needsWO (plan : Plan) : Bool :=
  plan.data_sources.contains "work_orders" || plan.data_sources.contains "all"

/-- The `results` object executePlan returns on success; each field is
`none` when the corresponding key is never set. -/
structure ExecResults where
  metricsDeals : Option DealsMetrics
  metricsWorkOrders : Option WOMetrics
  metricsCrossBoard : Option CrossBoard
  metricsFilteredDeals : Option DealsMetrics
  metricsQuarterFocus : Option ℚ
  dataQualityDeals : Option DataQualityReport
  dataQualityWorkOrders : Option DataQualityReport
  tablesDeals : Option (List Row)
  tablesWorkOrders : Option (List Row)
  tablesFilteredDeals : Option (List Row)
  confidence : Option ℚ

/-- What a call to executePlan yields: a bare `{ error }` object, the
full results object, or a thrown TypeError
(`normalizeBoard(null)` when a fetch yields neither error nor
board). -/
inductive ExecOutcome where
  | errorOnly (msg : String)
  | ok (r : ExecResults)
  | crash

/-- The tail of `executePlan` past both fetches: metrics, cross-board
analysis, filters and confidence, assembled from whichever boards were
normalized. -/
def execFinish (now : ℤ) (plan : Plan) (dealsNorm woNorm : Option BoardResult) :
    ExecResults :=
  let mdeals := dealsNorm.map (fun dn => computeDealsMetrics dn.rows)
  let mwo := woNorm.map (fun wn => computeWorkOrdersMetrics wn.rows now)
  let cross := match dealsNorm, woNorm with
    | some dn, some wn => some (crossBoardAnalysis dn.rows wn.rows)
    | _, _ => none
  let fsec : Option (DealsMetrics × List Row) := match plan.filters with
    | some f =>
      if strTruthy f.sector then
        match dealsNorm with
        | some dn =>
          let sec := jsLower (f.sector.getD "")
          let filtered := dn.rows.filter (fun r => r.any (fun p =>
            match p.2 with
            | JsVal.str s => containsL (jsLower s).data sec.data
            | _ => false))
          some (computeDealsMetrics filtered, filtered.take 20)
        | none => none
      else none
    | none => none
  let qf : Option ℚ := match plan.filters with
    | some f =>
      if strTruthy f.quarter then
        match mdeals with
        | some md => some ((alookup (f.quarter.getD "") md.quarterlyRevenue).getD 0)
        | none => none
      else none
    | none => none
  { metricsDeals := mdeals
    metricsWorkOrders := mwo
    metricsCrossBoard := cross
    metricsFilteredDeals := fsec.map Prod.fst
    metricsQuarterFocus := qf
    dataQualityDeals := dealsNorm.map (fun b => b.dataQuality)
    dataQualityWorkOrders := woNorm.map (fun b => b.dataQuality)
    tablesDeals := dealsNorm.map (fun dn => dn.rows.take 20)
    tablesWorkOrders := woNorm.map (fun wn => wn.rows.take 20)
    tablesFilteredDeals := fsec.map Prod.snd
    confidence := some (computeConfidence
      ((dealsNorm.map (fun b => b.dataQuality)).toList ++
        (woNorm.map (fun b => b.dataQuality)).toList)) }

/-- The work-orders fetch section of `executePlan`, entered with the
outcome of the deals section. -/
def execWOPhase (envv : String → Option String)
    (fetchB : String → Option String × Option RawBoard) (now : ℤ) (plan : Plan)
    (dealsNorm : Option BoardResult) : ExecOutcome :=
  if needsWO plan then
    let bid := envv "WORK_ORDERS_BOARD_ID"
    if strTruthy bid then
      let fr := fetchB (bid.getD "")
      if strTruthy fr.1 then ExecOutcome.errorOnly (fr.1.getD "")
      else
        match fr.2 with
        | none => ExecOutcome.crash
        | some board =>
          ExecOutcome.ok (execFinish now plan dealsNorm (some (normalizeBoard board)))
    else ExecOutcome.errorOnly "WORK_ORDERS_BOARD_ID not configured in .env"
  else ExecOutcome.ok (execFinish now plan dealsNorm none)

/-- Embedding of `executePlan` from `agent.js`: `envv` models the
environment configuration, `fetchB` the collaborator
`fetchBoard(boardId)` as the pair `(error, board)` it resolves with,
`now` the evaluation time of `computeWorkOrdersMetrics`. The
`if (!boardId)` and `if (error)` guards are JS truthiness tests. -/
def executePlan (envv : String → Option String)
    (fetchB : String → Option String × Option RawBoard) (now : ℤ) (plan : Plan) :
    ExecOutcome :=
  if needsDeals plan then
    let bid := envv "DEALS_BOARD_ID"
    if strTruthy bid then
      let fr := fetchB (bid.getD "")
      if strTruthy fr.1 then ExecOutcome.errorOnly (fr.1.getD "")
      else
        match fr.2 with
        | none => ExecOutcome.crash
        | some board =>
          execWOPhase envv fetchB now plan (some (normalizeBoard board))
    else ExecOutcome.errorOnly "DEALS_BOARD_ID not configured in .env"
  else execWOPhase envv fetchB now plan none

def C8env : String → Option String := fun k =>
  if k = "DEALS_BOARD_ID" then some "d1" else none

def C8board : RawBoard := { name := "B", columns := [], items := [] }

/-- A collaborator answering the deals fetch with a non-null but EMPTY
error string alongside a board. -/
def C8fetch : String → Option String × Option RawBoard := fun k =>
  if k = "d1" then (some "", some C8board) else (none, none)

def C8plan : Plan := { data_sources := ["deals"], filters := none }

/-- C8: counterexample. The guard is `if (error)`, a truthiness test,
not a null test: a fetch that returns the non-null error `""` slips
through the short-circuit, and executePlan returns the fully populated
results object (metrics, dataQuality, tables and confidence all set
for the deals source) instead of a result carrying only the error
message. -/
theorem C8_counterexample :
    (C8fetch "d1").1 = some "" ∧
    executePlan C8env C8fetch 0 C8plan =
      ExecOutcome.ok (execFinish 0 C8plan (some (normalizeBoard C8board)) none) ∧
    (execFinish 0 C8plan (some (normalizeBoard C8board)) none).metricsDeals.isSome = true ∧
    (execFinish 0 C8plan (some (normalizeBoard C8board)) none).dataQualityDeals.isSome
      = true ∧
    (execFinish 0 C8plan (some (normalizeBoard C8board)) none).tablesDeals.isSome = true ∧
    (execFinish 0 C8plan (some (normalizeBoard C8board)) none).confidence.isSome = true ∧
    ∀ msg, executePlan C8env C8fetch 0 C8plan ≠ ExecOutcome.errorOnly msg := by
  refine ⟨rfl, rfl, rfl, rfl, rfl, rfl, ?_⟩
  intro msg h
  have h0 : executePlan C8env C8fetch 0 C8plan =
      ExecOutcome.ok (execFinish 0 C8plan (some (normalizeBoard C8board)) none) := rfl
  rw [h0] at h
  exact ExecOutcome.noConfusion h

/-- C8 (amended): with JS truthiness made explicit, every failure
short-circuits to a bare error result. If the deals source is
requested and its board id is falsy, or its fetch error is truthy
(non-null and non-empty), executePlan returns only the error message;
if the work-orders source is requested and its board id is falsy or
its fetch error is truthy, the work-orders section returns only the
error message regardless of the deals normalization it was entered
with — in particular even after a successful deals fetch. -/
theorem C8_executePlan_amended (envv : String → Option String)
    (fetchB : String → Option String × Option RawBoard) (now : ℤ) (plan : Plan) :
    (needsDeals plan = true → strTruthy (envv "DEALS_BOARD_ID") = false →
      executePlan envv fetchB now plan =
        ExecOutcome.errorOnly "DEALS_BOARD_ID not configured in .env") ∧
    (needsDeals plan = true → strTruthy (envv "DEALS_BOARD_ID") = true →
      strTruthy (fetchB ((envv "DEALS_BOARD_ID").getD "")).1 = true →
      executePlan envv fetchB now plan =
        ExecOutcome.errorOnly ((fetchB ((envv "DEALS_BOARD_ID").getD "")).1.getD "")) ∧
    (∀ dealsNorm, needsWO plan = true →
      strTruthy (envv "WORK_ORDERS_BOARD_ID") = false →
      execWOPhase envv fetchB now plan dealsNorm =
        ExecOutcome.errorOnly "WORK_ORDERS_BOARD_ID not configured in .env") ∧
    (∀ dealsNorm, needsWO plan = true →
      strTruthy (envv "WORK_ORDERS_BOARD_ID") = true →
      strTruthy (fetchB ((envv "WORK_ORDERS_BOARD_ID").getD "")).1 = true →
      execWOPhase envv fetchB now plan dealsNorm =
        ExecOutcome.errorOnly ((fetchB ((envv "WORK_ORDERS_BOARD_ID").getD "")).1.getD "")) := by
  refine ⟨?_, ?_, ?_, ?_⟩
  · intro hn hb
    simp [executePlan, hn, hb]
  · intro hn hb herr
    simp [executePlan, hn, hb, herr]
  · intro dealsNorm hn hb
    simp [execWOPhase, hn, hb]
  · intro dealsNorm hn hb herr
    simp [execWOPhase, hn, hb, herr]

def C8env2 : String → Option String := fun k =>
  if k = "DEALS_BOARD_ID" then some "d1" else none

def C8fetch2 : String → Option String × Option RawBoard := fun k =>
  if k = "d1" then (none, some C8board) else (none, none)

def C8plan2 : Plan := { data_sources := ["all"], filters := none }

/-- C8 witness: with the deals board already fetched and normalized,
a missing work-orders board id still ends in the bare error result. -/
theorem C8_witness :
    execWOPhase C8env2 C8fetch2 0 C8plan2 (some (normalizeBoard C8board)) =
      ExecOutcome.errorOnly "WORK_ORDERS_BOARD_ID not configured in .env" :=
  (C8_executePlan_amended C8env2 C8fetch2 0 C8plan2).2.2.1
    (some (normalizeBoard C8board)) (by decide) (by decide)

end Skylark
